import Mathlib

/-!
Verification of the onomy_tests integration-test choreography.

This file gives a shallow embedding of the ICS basic scenario of the
pendulum-labs/onomy_tests repository: the three role runners
(provider `onomyd_runner`, consumer `consumer`/`marketd_runner`, relayer
`hermes_runner`) of `tests/src/bin/ics_basic.rs` and `src/bin/ics_basic.rs`,
the entry-name dispatch of the three binaries, the consumer genesis patch
of `marketd_runner`, and the bounded polling wait.  Role runners are
embedded as straight-line event traces parameterized over the values the
process receives from its peers and local drivers (an oracle), stateful
JSON mutation is embedded as explicit functional update, and fallible
steps return `Option`.
-/

namespace Onomy

/-! ## JSON documents

`Json` models `serde_json::Value`.  Objects are association lists keyed by
strings; `serde_json` map insertion replaces the value of an existing key,
which `upsert` mirrors on the first occurrence of the key. -/

inductive Json where
  | null : Json
  | bool (b : Bool) : Json
  | num (n : Int) : Json
  | str (s : String) : Json
  | arr (xs : List Json) : Json
  | obj (kvs : List (String × Json)) : Json
deriving Repr

/-- First-match association-list lookup, as `serde_json` map lookup. -/
def jlookup : List (String × Json) → String → Option Json
  | [], _ => none
  | (k', v') :: rest, k => if k' = k then some v' else jlookup rest k

/-- Insert-or-replace for the first occurrence of a key, as
`serde_json::Map::insert`. -/
def upsert : List (String × Json) → String → Json → List (String × Json)
  | [], k, v => [(k, v)]
  | (k', v') :: rest, k, v =>
      if k' = k then (k, v) :: rest else (k', v') :: upsert rest k v

/-- Read-indexing along a key path, as chained `value[key]` reads on
`serde_json` values (`none` where the chain leaves objects). -/
def getPath : Json → List String → Option Json
  | g, [] => some g
  | .obj kvs, k :: ks => (jlookup kvs k).bind (fun v => getPath v ks)
  | _, _ :: _ => none

/-- Mutation along a key path, as chained `value[key] = v` IndexMut on
`serde_json` values: indexing a `Null` converts it into an object,
indexing an absent key inserts `Null` first, and indexing any other
non-object panics (modeled as `none`). -/
def setPath : Json → List String → Json → Option Json
  | _, [], v => some v
  | .obj kvs, k :: ks, v =>
      (setPath ((jlookup kvs k).getD .null) ks v).map (fun w => .obj (upsert kvs k w))
  | .null, k :: ks, v =>
      (setPath .null ks v).map (fun w => .obj [(k, w)])
  | _, _ :: _, _ => none

/-- The three genesis assignments of `marketd_runner`
(`src/bin/ics_basic.rs` lines 379-381):
`genesis["app_state"]["ccvconsumer"] = ccvconsumer_state`,
`genesis["app_state"]["auth"]["accounts"] = accounts`,
`genesis["app_state"]["bank"] = bank`. -/
def setSubtrees (genesis ccv accounts bank : Json) : Option Json :=
  (setPath genesis ["app_state", "ccvconsumer"] ccv).bind (fun g1 =>
  (setPath g1 ["app_state", "auth", "accounts"] accounts).bind (fun g2 =>
  setPath g2 ["app_state", "bank"] bank))

/-! ## Basic path lemmas -/

theorem jlookup_upsert_self (kvs : List (String × Json)) (k : String) (v : Json) :
    jlookup (upsert kvs k v) k = some v := by
  induction kvs with
  | nil => simp [upsert, jlookup]
  | cons hd tl ih =>
      obtain ⟨k', v'⟩ := hd
      by_cases h : k' = k
      · simp [upsert, jlookup, h]
      · simp [upsert, jlookup, h, ih]

theorem jlookup_upsert_ne (kvs : List (String × Json)) (k k' : String) (v : Json)
    (h : k' ≠ k) : jlookup (upsert kvs k v) k' = jlookup kvs k' := by
  induction kvs with
  | nil => simp [upsert, jlookup, Ne.symm h]
  | cons hd tl ih =>
      obtain ⟨k0, v0⟩ := hd
      by_cases h0 : k0 = k
      · subst h0
        simp [upsert, jlookup, Ne.symm h]
      · by_cases h1 : k0 = k'
        · subst h1
          simp [upsert, jlookup, h0]
        · simp [upsert, jlookup, h0, h1, ih]

theorem upsert_lookup_eq (kvs : List (String × Json)) (k : String) (v : Json)
    (h : jlookup kvs k = some v) : upsert kvs k v = kvs := by
  induction kvs with
  | nil => simp [jlookup] at h
  | cons hd tl ih =>
      obtain ⟨k', v'⟩ := hd
      by_cases h0 : k' = k
      · subst h0
        simp [jlookup] at h
        simp [upsert, h]
      · simp [jlookup, h0] at h
        simp [upsert, h0, ih h]

/-- Setting a path then reading it back gives the written value. -/
theorem getPath_setPath_self (p : List String) :
    ∀ (g g' v : Json), setPath g p v = some g' → getPath g' p = some v := by
  induction p with
  | nil =>
      intro g g' v h
      simp [setPath] at h
      simp [getPath, h]
  | cons k ks ih =>
      intro g g' v h
      match g with
      | .obj kvs =>
          simp only [setPath, Option.map_eq_some'] at h
          obtain ⟨w, hw, hg'⟩ := h
          subst hg'
          simp [getPath, jlookup_upsert_self, ih _ _ _ hw]
      | .null =>
          simp only [setPath, Option.map_eq_some'] at h
          obtain ⟨w, hw, hg'⟩ := h
          subst hg'
          simp [getPath, jlookup, ih _ _ _ hw]
      | .bool b => simp [setPath] at h
      | .num n => simp [setPath] at h
      | .str s => simp [setPath] at h
      | .arr xs => simp [setPath] at h

/-- Path disjointness: neither path is a prefix of the other. -/
def pathsDisjoint : List String → List String → Prop
  | [], _ => False
  | _ :: _, [] => False
  | k :: ks, k' :: ks' => k ≠ k' ∨ pathsDisjoint ks ks'

instance : ∀ p q, Decidable (pathsDisjoint p q)
  | [], _ => by unfold pathsDisjoint; exact inferInstance
  | _ :: _, [] => by unfold pathsDisjoint; exact inferInstance
  | k :: ks, k' :: ks' => by
      unfold pathsDisjoint
      have : Decidable (pathsDisjoint ks ks') := instDecidablePathsDisjoint ks ks'
      exact inferInstance

theorem not_pathsDisjoint_nil_right (p : List String) : ¬ pathsDisjoint p [] := by
  cases p <;> simp [pathsDisjoint]

theorem getPath_null_cons (k : String) (ks : List String) :
    getPath .null (k :: ks) = none := rfl

/-- Frame property: a path mutation leaves every disjoint path unchanged. -/
theorem getPath_setPath_frame (p : List String) :
    ∀ (g g' v : Json) (q : List String), setPath g p v = some g' →
      pathsDisjoint p q → getPath g' q = getPath g q := by
  induction p with
  | nil =>
      intro g g' v q _ hdisj
      exact absurd hdisj (by simp [pathsDisjoint])
  | cons k ks ih =>
      intro g g' v q hset hdisj
      match q with
      | [] => exact absurd hdisj (not_pathsDisjoint_nil_right _)
      | k' :: ks' =>
          match g with
          | .obj kvs =>
              simp only [setPath, Option.map_eq_some'] at hset
              obtain ⟨w, hw, hg'⟩ := hset
              subst hg'
              by_cases hk : k = k'
              · subst hk
                have hdisj' : pathsDisjoint ks ks' := by
                  rcases hdisj with h | h
                  · exact absurd rfl h
                  · exact h
                match ks' with
                | [] => exact absurd hdisj' (not_pathsDisjoint_nil_right _)
                | a :: b =>
                    simp only [getPath, jlookup_upsert_self]
                    cases hget : jlookup kvs k with
                    | none =>
                        have h2 := ih _ _ _ (a :: b) (by simpa [hget] using hw) hdisj'
                        simp [h2, getPath_null_cons]
                    | some inner =>
                        have h2 := ih _ _ _ (a :: b) (by simpa [hget] using hw) hdisj'
                        simp [hget, h2]
              · rw [getPath, getPath, jlookup_upsert_ne kvs k k' w (Ne.symm hk)]
          | .null =>
              simp only [setPath, Option.map_eq_some'] at hset
              obtain ⟨w, hw, hg'⟩ := hset
              subst hg'
              by_cases hk : k = k'
              · subst hk
                have hdisj' : pathsDisjoint ks ks' := by
                  rcases hdisj with h | h
                  · exact absurd rfl h
                  · exact h
                match ks' with
                | [] => exact absurd hdisj' (not_pathsDisjoint_nil_right _)
                | a :: b =>
                    have h2 := ih _ _ _ (a :: b) hw hdisj'
                    simp [getPath, jlookup, h2, getPath_null_cons]
              · simp [getPath, jlookup, hk]
          | .bool b => simp [setPath] at hset
          | .num n => simp [setPath] at hset
          | .str s => simp [setPath] at hset
          | .arr xs => simp [setPath] at hset

/-- Setting a path to the value it already holds leaves the document
unchanged. -/
theorem setPath_getPath_id (p : List String) :
    ∀ (g v : Json), getPath g p = some v → setPath g p v = some g := by
  induction p with
  | nil =>
      intro g v h
      simp [getPath] at h
      simp [setPath, h]
  | cons k ks ih =>
      intro g v h
      match g with
      | .obj kvs =>
          simp only [getPath, Option.bind_eq_some] at h
          obtain ⟨inner, hin, hget⟩ := h
          simp [setPath, hin, ih _ _ hget, upsert_lookup_eq _ _ _ hin]
      | .null => simp [getPath] at h
      | .bool b => simp [getPath] at h
      | .num n => simp [getPath] at h
      | .str s => simp [getPath] at h
      | .arr xs => simp [getPath] at h

/-! ## The base-denomination substitution

`marketd_runner` serializes the patched genesis and performs
`genesis_s.replace("\"stake\"", "\"anom\"")` (line 383).  On the document,
the replaced occurrences of the quoted literal are exactly the string
components (object keys and string values) equal to `"stake"`; `substJ`
is that document-level substitution.  The string level is related to it
by `replaceList_serJ` further below. -/

def substStr (s : String) : String := if s = "stake" then "anom" else s

mutual

def substJ : Json → Json
  | .null => .null
  | .bool b => .bool b
  | .num n => .num n
  | .str s => .str (substStr s)
  | .arr xs => .arr (substArr xs)
  | .obj kvs => .obj (substObj kvs)

def substArr : List Json → List Json
  | [] => []
  | x :: xs => substJ x :: substArr xs

def substObj : List (String × Json) → List (String × Json)
  | [] => []
  | (k, v) :: kvs => (substStr k, substJ v) :: substObj kvs

end

theorem substStr_idem (s : String) : substStr (substStr s) = substStr s := by
  by_cases h : s = "stake" <;> simp [substStr, h]

mutual

theorem substJ_idem : ∀ (j : Json), substJ (substJ j) = substJ j
  | .null => rfl
  | .bool _ => rfl
  | .num _ => rfl
  | .str s => by simp [substJ, substStr_idem]
  | .arr xs => by simp [substJ, substArr_idem xs]
  | .obj kvs => by simp [substJ, substObj_idem kvs]

theorem substArr_idem : ∀ (xs : List Json), substArr (substArr xs) = substArr xs
  | [] => rfl
  | x :: xs => by simp [substArr, substJ_idem x, substArr_idem xs]

theorem substObj_idem : ∀ (kvs : List (String × Json)),
    substObj (substObj kvs) = substObj kvs
  | [] => rfl
  | (k, v) :: kvs => by
      simp [substObj, substStr_idem, substJ_idem v, substObj_idem kvs]

end

/-- A key is untouched by the substitution when it is neither the replaced
nor the inserted literal. -/
def plainKey (k : String) : Prop := k ≠ "stake" ∧ k ≠ "anom"

theorem substStr_eq_iff_of_plain (k' k : String) (h : plainKey k) :
    substStr k' = k ↔ k' = k := by
  obtain ⟨h1, h2⟩ := h
  by_cases hs : k' = "stake"
  · subst hs
    simp [substStr, Ne.symm h2, Ne.symm h1]
  · simp [substStr, hs]

theorem jlookup_substObj (kvs : List (String × Json)) (k : String) (h : plainKey k) :
    jlookup (substObj kvs) k = (jlookup kvs k).map substJ := by
  induction kvs with
  | nil => simp [substObj, jlookup]
  | cons hd tl ih =>
      obtain ⟨k', v'⟩ := hd
      by_cases hk : k' = k
      · subst hk
        simp [substObj, jlookup, (substStr_eq_iff_of_plain k' k' ⟨h.1, h.2⟩).mpr rfl]
      · have : substStr k' ≠ k := fun hc => hk ((substStr_eq_iff_of_plain k' k h).mp hc)
        simp [substObj, jlookup, hk, this, ih]

theorem upsert_substObj (kvs : List (String × Json)) (k : String) (v : Json)
    (h : plainKey k) :
    substObj (upsert kvs k v) = upsert (substObj kvs) k (substJ v) := by
  induction kvs with
  | nil =>
      simp [upsert, substObj, (substStr_eq_iff_of_plain k k h).mpr rfl]
  | cons hd tl ih =>
      obtain ⟨k', v'⟩ := hd
      by_cases hk : k' = k
      · subst hk
        simp [upsert, substObj, (substStr_eq_iff_of_plain k' k' ⟨h.1, h.2⟩).mpr rfl]
      · have : substStr k' ≠ k := fun hc => hk ((substStr_eq_iff_of_plain k' k h).mp hc)
        simp [upsert, substObj, hk, this, ih]

/-- Path mutation is a congruence for the substitution: documents with the
same substituted image produce mutation results with the same substituted
image (for paths whose keys the substitution does not touch). -/
theorem setPath_substJ_congr (p : List String) :
    ∀ (y z v : Json), (∀ k ∈ p, plainKey k) → substJ y = substJ z →
      (setPath y p v).map substJ = (setPath z p v).map substJ := by
  induction p with
  | nil => intro y z v _ _; simp [setPath]
  | cons k ks ih =>
      intro y z v hp h
      have hk : plainKey k := hp k (by simp)
      have hks : ∀ k' ∈ ks, plainKey k' := fun k' hm => hp k' (by simp [hm])
      match y, z with
      | .obj kvs1, .obj kvs2 =>
          simp only [substJ, Json.obj.injEq] at h
          have hlk : (jlookup kvs1 k).map substJ = (jlookup kvs2 k).map substJ := by
            rw [← jlookup_substObj _ _ hk, ← jlookup_substObj _ _ hk, h]
          have hinner : substJ ((jlookup kvs1 k).getD .null)
              = substJ ((jlookup kvs2 k).getD .null) := by
            cases h1 : jlookup kvs1 k with
            | none =>
                cases h2 : jlookup kvs2 k with
                | none => rfl
                | some i2 => rw [h1, h2] at hlk; simp at hlk
            | some i1 =>
                cases h2 : jlookup kvs2 k with
                | none => rw [h1, h2] at hlk; simp at hlk
                | some i2 =>
                    rw [h1, h2] at hlk
                    simpa using hlk
          have hrec := ih _ _ v hks hinner
          simp only [setPath]
          cases hs1 : setPath ((jlookup kvs1 k).getD .null) ks v with
          | none =>
              cases hs2 : setPath ((jlookup kvs2 k).getD .null) ks v with
              | some w2 => rw [hs1, hs2] at hrec; simp at hrec
              | none => simp
          | some w1 =>
              cases hs2 : setPath ((jlookup kvs2 k).getD .null) ks v with
              | none => rw [hs1, hs2] at hrec; simp at hrec
              | some w2 =>
                  rw [hs1, hs2] at hrec
                  simp only [Option.map_some'] at hrec ⊢
                  simp only [substJ, upsert_substObj _ _ _ hk, Json.obj.injEq]
                  rw [h, (by simpa using hrec : substJ w1 = substJ w2)]
      | .null, .null =>
          rfl
      | .null, .obj kvs2 => simp [substJ] at h
      | .null, .bool b => simp [substJ] at h
      | .null, .num n => simp [substJ] at h
      | .null, .str s => simp [substJ] at h
      | .null, .arr xs => simp [substJ] at h
      | .obj kvs1, .null => simp [substJ] at h
      | .obj kvs1, .bool b => simp [substJ] at h
      | .obj kvs1, .num n => simp [substJ] at h
      | .obj kvs1, .str s => simp [substJ] at h
      | .obj kvs1, .arr xs => simp [substJ] at h
      | .bool b, z' =>
          cases z' <;> simp [substJ] at h <;> simp [setPath, h]
      | .num n, z' =>
          cases z' <;> simp [substJ] at h <;> simp [setPath, h]
      | .str s, z' =>
          cases z' <;> simp [substJ] at h <;> simp [setPath, h]
      | .arr xs, z' =>
          cases z' <;> simp [substJ] at h <;> simp [setPath, h]

/-- The consumer genesis overwrite paths. -/
def pathCcv : List String := ["app_state", "ccvconsumer"]

def pathAccounts : List String := ["app_state", "auth", "accounts"]

def pathBank : List String := ["app_state", "bank"]

theorem pathCcv_plain : ∀ k ∈ pathCcv, plainKey k := by
  intro k hk
  simp [pathCcv] at hk
  rcases hk with h | h <;> subst h <;> exact ⟨by decide, by decide⟩

theorem pathAccounts_plain : ∀ k ∈ pathAccounts, plainKey k := by
  intro k hk
  simp [pathAccounts] at hk
  rcases hk with h | h | h <;> subst h <;> exact ⟨by decide, by decide⟩

theorem pathBank_plain : ∀ k ∈ pathBank, plainKey k := by
  intro k hk
  simp [pathBank] at hk
  rcases hk with h | h <;> subst h <;> exact ⟨by decide, by decide⟩

/-- The consumer genesis patch as a document transformer: the three
subtree overwrites of `marketd_runner` followed by the document-level
base-denomination substitution. -/
def applyConsumerPatch (ccv accounts bank g : Json) : Option Json :=
  (setSubtrees g ccv accounts bank).map substJ

theorem setSubtrees_substJ_congr (ccv accounts bank : Json) (y z : Json)
    (h : substJ y = substJ z) :
    (setSubtrees y ccv accounts bank).map substJ
      = (setSubtrees z ccv accounts bank).map substJ := by
  have hc1 := setPath_substJ_congr pathCcv y z ccv pathCcv_plain h
  simp only [setSubtrees]
  cases h1 : setPath y pathCcv ccv with
  | none =>
      cases h2 : setPath z pathCcv ccv with
      | some z1 => rw [h1, h2] at hc1; simp at hc1
      | none => simp [pathCcv] at h1 h2; simp [h1, h2]
  | some y1 =>
      cases h2 : setPath z pathCcv ccv with
      | none => rw [h1, h2] at hc1; simp at hc1
      | some z1 =>
          rw [h1, h2] at hc1
          have hy1 : substJ y1 = substJ z1 := by simpa using hc1
          have hc2 := setPath_substJ_congr pathAccounts y1 z1 accounts pathAccounts_plain hy1
          cases h3 : setPath y1 pathAccounts accounts with
          | none =>
              cases h4 : setPath z1 pathAccounts accounts with
              | some z2 => rw [h3, h4] at hc2; simp at hc2
              | none =>
                  simp [pathCcv] at h1 h2
                  simp [pathAccounts] at h3 h4
                  simp [h1, h2, h3, h4]
          | some y2 =>
              cases h4 : setPath z1 pathAccounts accounts with
              | none => rw [h3, h4] at hc2; simp at hc2
              | some z2 =>
                  rw [h3, h4] at hc2
                  have hy2 : substJ y2 = substJ z2 := by simpa using hc2
                  have hc3 := setPath_substJ_congr pathBank y2 z2 bank pathBank_plain hy2
                  simp [pathCcv] at h1 h2
                  simp [pathAccounts] at h3 h4
                  simp [pathBank] at hc3
                  simp [h1, h2, h3, h4, hc3]

/-- The three overwritten subtrees hold exactly the received fragments in
the patched document (before substitution). -/
theorem setSubtrees_getPath (g ccv accounts bank x : Json)
    (h : setSubtrees g ccv accounts bank = some x) :
    getPath x pathCcv = some ccv ∧ getPath x pathAccounts = some accounts
      ∧ getPath x pathBank = some bank := by
  simp only [setSubtrees, Option.bind_eq_some] at h
  obtain ⟨g1, h1, g2, h2, h3⟩ := h
  refine ⟨?_, ?_, ?_⟩
  · have e1 := getPath_setPath_self _ _ _ _ h1
    have e2 := getPath_setPath_frame _ _ _ _ pathCcv h2 (by decide)
    have e3 := getPath_setPath_frame _ _ _ _ pathCcv h3 (by decide)
    rw [e3, e2]
    exact e1
  · have e1 := getPath_setPath_self _ _ _ _ h2
    have e3 := getPath_setPath_frame _ _ _ _ pathAccounts h3 (by decide)
    rw [e3]
    exact e1
  · exact getPath_setPath_self _ _ _ _ h3

/-- Every path disjoint from the three overwritten ones reads the same in
the patched document (before substitution) as in the base document. -/
theorem setSubtrees_frame (g ccv accounts bank x : Json) (q : List String)
    (h : setSubtrees g ccv accounts bank = some x)
    (d1 : pathsDisjoint pathCcv q) (d2 : pathsDisjoint pathAccounts q)
    (d3 : pathsDisjoint pathBank q) :
    getPath x q = getPath g q := by
  simp only [setSubtrees, Option.bind_eq_some] at h
  obtain ⟨g1, h1, g2, h2, h3⟩ := h
  rw [getPath_setPath_frame _ _ _ _ q h3 d3, getPath_setPath_frame _ _ _ _ q h2 d2,
    getPath_setPath_frame _ _ _ _ q h1 d1]

/-- Re-applying the three overwrites with the same fragments to an already
patched (pre-substitution) document changes nothing. -/
theorem setSubtrees_self (g ccv accounts bank x : Json)
    (h : setSubtrees g ccv accounts bank = some x) :
    setSubtrees x ccv accounts bank = some x := by
  obtain ⟨e1, e2, e3⟩ := setSubtrees_getPath g ccv accounts bank x h
  have s1 := setPath_getPath_id pathCcv x ccv e1
  have s2 := setPath_getPath_id pathAccounts x accounts e2
  have s3 := setPath_getPath_id pathBank x bank e3
  simp [pathCcv] at s1
  simp [pathAccounts] at s2
  simp [pathBank] at s3
  simp [setSubtrees, s1, s2, s3]

/-- Idempotence of the full consumer genesis patch at the document level. -/
theorem applyConsumerPatch_idem (ccv accounts bank g d : Json)
    (h : applyConsumerPatch ccv accounts bank g = some d) :
    applyConsumerPatch ccv accounts bank d = some d := by
  simp only [applyConsumerPatch, Option.map_eq_some'] at h
  obtain ⟨x, hx, hd⟩ := h
  subst hd
  have hself := setSubtrees_self g ccv accounts bank x hx
  have hcongr := setSubtrees_substJ_congr ccv accounts bank (substJ x) x (substJ_idem x)
  simp only [applyConsumerPatch, hcongr, hself, Option.map_some']

/-! ## Serialization and the literal string replacement

`marketd_runner` serializes the patched genesis with
`serde_json::Value::to_string` (compact form) and performs
`.replace("\"stake\"", "\"anom\"")` on the resulting text.  `serJ` is the
compact serializer and `replaceL` is Rust `str::replace` (leftmost,
non-overlapping matches; the source only ever calls it with a non-empty
pattern, which the embedding fixes). -/

def hexDigit (n : Nat) : Char :=
  (String.toList "0123456789abcdef").getD n '0'

/-- Escaping of a character inside a JSON string literal, as
`serde_json` writes it. -/
def escChar (c : Char) : List Char :=
  if c = '"' then ['\\', '"']
  else if c = '\\' then ['\\', '\\']
  else if c.toNat = 8 then ['\\', 'b']
  else if c.toNat = 12 then ['\\', 'f']
  else if c.toNat = 10 then ['\\', 'n']
  else if c.toNat = 13 then ['\\', 'r']
  else if c.toNat = 9 then ['\\', 't']
  else if c.toNat < 32 then
    ['\\', 'u', '0', '0', hexDigit (c.toNat / 16), hexDigit (c.toNat % 16)]
  else [c]

def escList : List Char → List Char
  | [] => []
  | c :: cs => escChar c ++ escList cs

/-- A serialized JSON string token, quotes included. -/
def serString (s : String) : List Char := '"' :: (escList s.data ++ ['"'])

mutual

/-- Compact `serde_json::Value::to_string` serialization. -/
def serJ : Json → List Char
  | .null => "null".data
  | .bool b => (cond b "true" "false").data
  | .num n => (Int.repr n).data
  | .str s => serString s
  | .arr xs => '[' :: (serArrAux xs ++ [']'])
  | .obj kvs => '{' :: (serObjAux kvs ++ ['}'])

def serArrAux : List Json → List Char
  | [] => []
  | [x] => serJ x
  | x :: y :: rest => serJ x ++ ',' :: serArrAux (y :: rest)

def serObjAux : List (String × Json) → List Char
  | [] => []
  | [(kx, v)] => serString kx ++ ':' :: serJ v
  | (kx, v) :: p :: rest => serString kx ++ ':' :: serJ v ++ ',' :: serObjAux (p :: rest)

end

/-- A character that serializes as itself inside a string token: not a
quote, not a backslash, not a control character. -/
def plainCharB (c : Char) : Bool :=
  decide (c ≠ '"') && decide (c ≠ '\\') && decide (32 ≤ c.toNat)

mutual

/-- All string components (keys and values) of the document consist of
plain characters; genesis documents satisfy this. -/
def goodB : Json → Bool
  | .null => true
  | .bool _ => true
  | .num _ => true
  | .str s => s.data.all plainCharB
  | .arr xs => goodArrB xs
  | .obj kvs => goodObjB kvs

def goodArrB : List Json → Bool
  | [] => true
  | x :: xs => goodB x && goodArrB xs

def goodObjB : List (String × Json) → Bool
  | [] => true
  | (kx, v) :: kvs => kx.data.all plainCharB && goodB v && goodObjB kvs

end

/-- Rust `str::replace` on character lists: scan left to right, replacing
each leftmost non-overlapping occurrence of `p` by `r`. -/
def replaceL (p r : List Char) : List Char → List Char
  | [] => []
  | c :: cs =>
      if h : p ≠ [] ∧ List.take p.length (c :: cs) = p then
        r ++ replaceL p r (List.drop p.length (c :: cs))
      else
        c :: replaceL p r cs
termination_by s => s.length
decreasing_by
  · have hp : p.length ≠ 0 := by
      intro hc
      exact h.1 (List.length_eq_zero.mp hc)
    simp only [List.length_drop, List.length_cons]
    omega
  · simp

/-- Rust `str::replace`. -/
def strReplace (s pat rep : String) : String :=
  ⟨replaceL pat.data rep.data s.data⟩

/-- The replaced pattern `"\"stake\""` as a character list. -/
def quotedStake : List Char := ['"', 's', 't', 'a', 'k', 'e', '"']

/-- The replacement `"\"anom\""` as a character list. -/
def quotedAnom : List Char := ['"', 'a', 'n', 'o', 'm', '"']

theorem quotedStake_eq_data : quotedStake = "\"stake\"".data := by decide

theorem quotedAnom_eq_data : quotedAnom = "\"anom\"".data := by decide

/-! ## Scan lemmas for the replacement -/

theorem replaceL_nil (p r : List Char) : replaceL p r [] = [] := by
  rw [replaceL]

/-- The scan steps over a character that cannot start a match. -/
theorem replaceL_cons_ne (q : Char) (qs : List Char) (r : List Char) (c : Char)
    (cs : List Char) (h : c ≠ q) :
    replaceL (q :: qs) r (c :: cs) = c :: replaceL (q :: qs) r cs := by
  rw [replaceL, dif_neg]
  rintro ⟨-, hteq⟩
  rw [List.length_cons, List.take_succ_cons] at hteq
  exact h (List.cons.inj hteq).1

/-- The scan replaces a match at the head. -/
theorem replaceL_append_pat (p r t : List Char) (hp : p ≠ []) :
    replaceL p r (p ++ t) = r ++ replaceL p r t := by
  match p with
  | q :: qs =>
      rw [show ((q :: qs) ++ t) = q :: (qs ++ t) from rfl, replaceL, dif_pos]
      · rw [show (q :: (qs ++ t)) = ((q :: qs) ++ t) from rfl, List.drop_left]
      · constructor
        · simp
        · rw [show (q :: (qs ++ t)) = ((q :: qs) ++ t) from rfl, List.take_left]

/-- The scan steps over a quote that is not followed by the pattern tail. -/
theorem replaceL_cons_quote (r t : List Char)
    (h : List.take 6 t ≠ ['s', 't', 'a', 'k', 'e', '"']) :
    replaceL quotedStake r ('"' :: t) = '"' :: replaceL quotedStake r t := by
  rw [replaceL, dif_neg]
  rintro ⟨-, hteq⟩
  apply h
  have hl : quotedStake.length = 6 + 1 := rfl
  rw [hl, List.take_succ_cons] at hteq
  have := (List.cons.inj hteq).2
  simpa [quotedStake] using this

/-- The scan steps over any quote-free segment. -/
theorem replaceL_append_plain (r a t : List Char) (h : ∀ c ∈ a, c ≠ '"') :
    replaceL quotedStake r (a ++ t) = a ++ replaceL quotedStake r t := by
  induction a with
  | nil => simp
  | cons c a' ih =>
      have hc : c ≠ '"' := h c (by simp)
      have ha' : ∀ c' ∈ a', c' ≠ '"' := fun c' hm => h c' (by simp [hm])
      rw [List.cons_append,
        show quotedStake = '"' :: ['s', 't', 'a', 'k', 'e', '"'] from rfl,
        replaceL_cons_ne _ _ _ _ _ hc]
      rw [show ('"' :: ['s', 't', 'a', 'k', 'e', '"'] : List Char) = quotedStake from rfl,
        ih ha']
      simp

/-! ## Character classes -/

theorem plainCharB_spec (c : Char) (h : plainCharB c = true) :
    c ≠ '"' ∧ c ≠ '\\' ∧ 32 ≤ c.toNat := by
  simp [plainCharB] at h
  exact ⟨h.1.1, h.1.2, h.2⟩

theorem escChar_plain (c : Char) (h : plainCharB c = true) : escChar c = [c] := by
  obtain ⟨h1, h2, h3⟩ := plainCharB_spec c h
  have e8 : c.toNat ≠ 8 := by omega
  have e12 : c.toNat ≠ 12 := by omega
  have e10 : c.toNat ≠ 10 := by omega
  have e13 : c.toNat ≠ 13 := by omega
  have e9 : c.toNat ≠ 9 := by omega
  have e32 : ¬ c.toNat < 32 := by omega
  simp [escChar, h1, h2, e8, e12, e10, e13, e9, e32]

theorem escList_plain (l : List Char) (h : l.all plainCharB = true) : escList l = l := by
  induction l with
  | nil => rfl
  | cons c cs ih =>
      simp only [List.all_cons, Bool.and_eq_true] at h
      rw [escList, escChar_plain c h.1, ih h.2]
      simp

def digitChars : List Char := "0123456789".data

theorem digitChar_mem (m : Nat) (h : m < 10) : Nat.digitChar m ∈ digitChars := by
  interval_cases m <;> decide

theorem toDigitsCore_mem (fuel : Nat) :
    ∀ (n : Nat) (acc : List Char), (∀ c ∈ acc, c ∈ digitChars) →
      ∀ c ∈ Nat.toDigitsCore 10 fuel n acc, c ∈ digitChars := by
  induction fuel with
  | zero =>
      intro n acc hacc c hc
      rw [Nat.toDigitsCore] at hc
      exact hacc c hc
  | succ fuel ih =>
      intro n acc hacc c hc
      simp only [Nat.toDigitsCore] at hc
      have hd : Nat.digitChar (n % 10) ∈ digitChars :=
        digitChar_mem _ (Nat.mod_lt _ (by decide))
      by_cases h0 : n / 10 = 0
      · rw [if_pos h0] at hc
        rcases List.mem_cons.mp hc with hc | hc
        · exact hc ▸ hd
        · exact hacc c hc
      · rw [if_neg h0] at hc
        refine ih _ _ ?_ c hc
        intro c' hc'
        rcases List.mem_cons.mp hc' with hc' | hc'
        · exact hc' ▸ hd
        · exact hacc c' hc'

theorem natRepr_mem (n : Nat) : ∀ c ∈ (Nat.repr n).data, c ∈ digitChars := by
  intro c hc
  exact toDigitsCore_mem _ _ _ (by intro c' hc'; cases hc') c hc

theorem digit_ne_quote : ∀ c ∈ digitChars, c ≠ '"' := by decide

theorem intRepr_ne_quote (n : Int) : ∀ c ∈ (Int.repr n).data, c ≠ '"' := by
  intro c hc
  match n with
  | .ofNat m =>
      exact digit_ne_quote c (natRepr_mem m c hc)
  | .negSucc m =>
      rw [Int.repr] at hc
      rw [String.data_append] at hc
      rcases List.mem_append.mp hc with hc | hc
      · simp at hc
        subst hc
        decide
      · exact digit_ne_quote c (natRepr_mem _ c hc)

/-- A continuation that cannot begin the tail of the quoted pattern after
a closing quote of the preceding token. -/
def safeK : List Char → Prop
  | [] => True
  | c :: _ => c ≠ 's'

theorem safeK_cons (c : Char) (l : List Char) (h : c ≠ 's') : safeK (c :: l) := h

theorem replaceL_cons_nomatch (p r : List Char) (c : Char) (cs : List Char)
    (h : ¬ p <+: (c :: cs)) :
    replaceL p r (c :: cs) = c :: replaceL p r cs := by
  rw [replaceL, dif_neg]
  rintro ⟨-, hteq⟩
  exact h (List.prefix_iff_eq_take.mpr hteq.symm)

/-- If a quote-free segment closed by a quote is a prefix of another
quote-free segment closed by a quote, the two segments coincide. -/
theorem prefix_token_eq (d : List Char) (hd : ∀ c ∈ d, c ≠ '"') :
    ∀ (l : List Char), (∀ c ∈ l, c ≠ '"') → ∀ (k : List Char),
      (d ++ ['"']) <+: (l ++ '"' :: k) → d = l := by
  induction d with
  | nil =>
      intro l hl k h
      match l with
      | [] => rfl
      | a :: l' =>
          simp only [List.nil_append, List.cons_append] at h
          rw [List.cons_prefix_cons] at h
          exact absurd h.1.symm (hl a (by simp))
  | cons c d' ih =>
      intro l hl k h
      match l with
      | [] =>
          simp only [List.cons_append, List.nil_append] at h
          rw [List.cons_prefix_cons] at h
          exact absurd h.1 (hd c (by simp))
      | a :: l' =>
          simp only [List.cons_append] at h
          rw [List.cons_prefix_cons] at h
          have heq := ih (fun c' hm => hd c' (by simp [hm])) l'
            (fun c' hm => hl c' (by simp [hm])) k h.2
          rw [h.1, heq]

theorem string_eq_of_data (s t : String) (h : s.data = t.data) : s = t := by
  cases s with
  | mk d1 =>
      cases t with
      | mk d2 =>
          have h' : d1 = d2 := h
          rw [h']

theorem plain_all_ne_quote (l : List Char) (h : l.all plainCharB = true) :
    ∀ c ∈ l, c ≠ '"' := by
  intro c hc
  exact (plainCharB_spec c (List.all_eq_true.mp h c hc)).1

theorem quotedStake_cons : quotedStake = '"' :: ("stake".data ++ ['"']) := by decide

theorem patTail_cons : "stake".data ++ ['"'] = 's' :: ['t', 'a', 'k', 'e', '"'] := by
  decide

/-- The replacement acts on a serialized string token exactly as the
document-level substitution: the token `"stake"` becomes `"anom"`, every
other plain token passes through unchanged. -/
theorem replaceL_serString (s : String) (hs : s.data.all plainCharB = true)
    (k : List Char) (hk : safeK k) :
    replaceL quotedStake quotedAnom (serString s ++ k)
      = serString (substStr s) ++ replaceL quotedStake quotedAnom k := by
  have hknomatch : ¬ quotedStake <+: ('"' :: k) := by
    intro hpre
    rw [quotedStake_cons, List.cons_prefix_cons] at hpre
    have hpre2 := hpre.2
    rw [patTail_cons] at hpre2
    match k, hk with
    | [], _ =>
        rw [List.prefix_nil] at hpre2
        cases hpre2
    | c :: k', hk =>
        rw [List.cons_prefix_cons] at hpre2
        exact (safeK_cons c k' (fun hcs => (hk : c ≠ 's') hcs) : c ≠ 's') hpre2.1.symm
  by_cases hstake : s = "stake"
  · subst hstake
    rw [show serString "stake" = quotedStake from by decide,
      show serString (substStr "stake") = quotedAnom from by decide]
    exact replaceL_append_pat _ _ _ (by decide)
  · have hsub : substStr s = s := by simp [substStr, hstake]
    rw [hsub, serString, escList_plain _ hs]
    simp only [List.cons_append, List.append_assoc, List.singleton_append, List.nil_append]
    rw [replaceL_cons_nomatch _ _ _ _ ?hnm]
    case hnm =>
      intro hpre
      rw [quotedStake_cons, List.cons_prefix_cons] at hpre
      have heq := prefix_token_eq "stake".data (by decide) s.data
        (plain_all_ne_quote _ hs) k hpre.2
      exact hstake (string_eq_of_data s "stake" heq.symm)
    rw [replaceL_append_plain _ _ _ (plain_all_ne_quote _ hs)]
    rw [replaceL_cons_nomatch _ _ _ _ hknomatch]

theorem quotedStake_ne_nil : quotedStake ≠ [] := by decide

mutual

/-- On a serialized good document (followed by any safe continuation) the
literal replacement of `"\"stake\""` by `"\"anom\""` acts exactly as the
document-level substitution `substJ`. -/
theorem replaceL_serJ : ∀ (j : Json), goodB j = true → ∀ (k : List Char), safeK k →
    replaceL quotedStake quotedAnom (serJ j ++ k)
      = serJ (substJ j) ++ replaceL quotedStake quotedAnom k
  | .null, _, k, _ => by
      have h := replaceL_append_plain quotedAnom "null".data k (by decide)
      simpa [serJ, substJ] using h
  | .bool true, _, k, _ => by
      have h := replaceL_append_plain quotedAnom "true".data k (by decide)
      simpa [serJ, substJ] using h
  | .bool false, _, k, _ => by
      have h := replaceL_append_plain quotedAnom "false".data k (by decide)
      simpa [serJ, substJ] using h
  | .num n, _, k, _ => by
      have h := replaceL_append_plain quotedAnom (Int.repr n).data k (intRepr_ne_quote n)
      simpa [serJ, substJ] using h
  | .str s, hj, k, hk => by
      have hs : s.data.all plainCharB = true := by simpa [goodB] using hj
      have h := replaceL_serString s hs k hk
      simpa [serJ, substJ] using h
  | .arr xs, hj, k, hk => by
      have hxs : goodArrB xs = true := by simpa [goodB] using hj
      have hlist := replaceL_serArr xs hxs (']' :: k) (safeK_cons _ _ (by decide))
      rw [serJ, substJ, serJ]
      simp only [List.cons_append, List.append_assoc, List.singleton_append, List.nil_append]
      rw [quotedStake_cons, replaceL_cons_ne _ _ _ _ _ (by decide), ← quotedStake_cons,
        hlist, quotedStake_cons, replaceL_cons_ne _ _ _ _ _ (by decide), ← quotedStake_cons]
  | .obj kvs, hj, k, hk => by
      have hkvs : goodObjB kvs = true := by simpa [goodB] using hj
      have hlist := replaceL_serObj kvs hkvs ('}' :: k) (safeK_cons _ _ (by decide))
      rw [serJ, substJ, serJ]
      simp only [List.cons_append, List.append_assoc, List.singleton_append, List.nil_append]
      rw [quotedStake_cons, replaceL_cons_ne _ _ _ _ _ (by decide), ← quotedStake_cons,
        hlist, quotedStake_cons, replaceL_cons_ne _ _ _ _ _ (by decide), ← quotedStake_cons]

theorem replaceL_serArr : ∀ (xs : List Json), goodArrB xs = true →
    ∀ (k : List Char), safeK k →
    replaceL quotedStake quotedAnom (serArrAux xs ++ k)
      = serArrAux (substArr xs) ++ replaceL quotedStake quotedAnom k
  | [], _, k, _ => by simp [serArrAux, substArr]
  | [x], hx, k, hk => by
      have hgx : goodB x = true := by simpa [goodArrB] using hx
      have h := replaceL_serJ x hgx k hk
      simpa [serArrAux, substArr] using h
  | x :: y :: rest, hx, k, hk => by
      have hgx : goodB x = true := by
        simp only [goodArrB, Bool.and_eq_true] at hx
        exact hx.1
      have hgrest : goodArrB (y :: rest) = true := by
        simp only [goodArrB, Bool.and_eq_true] at hx
        simp [goodArrB, hx.2.1, hx.2.2]
      have hlist := replaceL_serArr (y :: rest) hgrest k hk
      rw [serArrAux, substArr, substArr]
      rw [show serArrAux (substJ x :: substJ y :: substArr rest)
            = serJ (substJ x) ++ ',' :: serArrAux (substJ y :: substArr rest) from rfl]
      simp only [List.cons_append, List.append_assoc, List.nil_append]
      rw [replaceL_serJ x hgx (',' :: (serArrAux (y :: rest) ++ k))
          (safeK_cons _ _ (by decide)),
        quotedStake_cons, replaceL_cons_ne _ _ _ _ _ (by decide), ← quotedStake_cons,
        hlist]
      simp [substArr]

theorem replaceL_serObj : ∀ (kvs : List (String × Json)), goodObjB kvs = true →
    ∀ (k : List Char), safeK k →
    replaceL quotedStake quotedAnom (serObjAux kvs ++ k)
      = serObjAux (substObj kvs) ++ replaceL quotedStake quotedAnom k
  | [], _, k, _ => by simp [serObjAux, substObj]
  | [(kx, v)], hx, k, hk => by
      simp only [goodObjB, Bool.and_eq_true] at hx
      rw [serObjAux, substObj, substObj]
      rw [show serObjAux [(substStr kx, substJ v)]
            = serString (substStr kx) ++ ':' :: serJ (substJ v) from rfl]
      simp only [List.cons_append, List.append_assoc, List.nil_append]
      rw [replaceL_serString kx hx.1.1 (':' :: (serJ v ++ k)) (safeK_cons _ _ (by decide)),
        quotedStake_cons, replaceL_cons_ne _ _ _ _ _ (by decide), ← quotedStake_cons,
        replaceL_serJ v hx.1.2 k hk]
  | (kx, v) :: p :: rest, hx, k, hk => by
      simp only [goodObjB, Bool.and_eq_true] at hx
      have hgrest : goodObjB (p :: rest) = true := by
        obtain ⟨q, w⟩ := p
        simp only [goodObjB, Bool.and_eq_true] at hx ⊢
        exact hx.2
      have hlist := replaceL_serObj (p :: rest) hgrest k hk
      rw [serObjAux, substObj]
      rw [show substObj (p :: rest) = (substStr p.1, substJ p.2) :: substObj rest from by
        obtain ⟨q, w⟩ := p
        rfl]
      rw [show serObjAux ((substStr kx, substJ v) :: (substStr p.1, substJ p.2)
            :: substObj rest)
            = serString (substStr kx) ++ ':' :: serJ (substJ v)
              ++ ',' :: serObjAux ((substStr p.1, substJ p.2) :: substObj rest) from rfl]
      simp only [List.cons_append, List.append_assoc, List.nil_append]
      rw [replaceL_serString kx hx.1.1
          (':' :: (serJ v ++ (',' :: (serObjAux (p :: rest) ++ k))))
          (safeK_cons _ _ (by decide)),
        quotedStake_cons, replaceL_cons_ne _ _ _ _ _ (by decide), ← quotedStake_cons,
        replaceL_serJ v hx.1.2 (',' :: (serObjAux (p :: rest) ++ k))
          (safeK_cons _ _ (by decide)),
        quotedStake_cons, replaceL_cons_ne _ _ _ _ _ (by decide), ← quotedStake_cons,
        hlist]
      rw [show substObj (p :: rest) = (substStr p.1, substJ p.2) :: substObj rest from by
        obtain ⟨q, w⟩ := p
        rfl]

end

/-- The full string-level/document-level correspondence for serialized good
documents. -/
theorem replaceL_serJ_final (j : Json) (hj : goodB j = true) :
    replaceL quotedStake quotedAnom (serJ j) = serJ (substJ j) := by
  have h := replaceL_serJ j hj [] trivial
  simpa [replaceL_nil] using h

/-! ## Goodness preservation -/

theorem goodB_jlookup (kvs : List (String × Json)) (k : String) (v : Json)
    (h : jlookup kvs k = some v) (hg : goodObjB kvs = true) : goodB v = true := by
  induction kvs with
  | nil => simp [jlookup] at h
  | cons hd tl ih =>
      obtain ⟨k', v'⟩ := hd
      simp only [goodObjB, Bool.and_eq_true] at hg
      by_cases h0 : k' = k
      · simp only [jlookup, if_pos h0] at h
        exact (Option.some.inj h) ▸ hg.1.2
      · simp only [jlookup, if_neg h0] at h
        exact ih h hg.2

theorem goodObjB_upsert (kvs : List (String × Json)) (k : String) (v : Json)
    (hk : k.data.all plainCharB = true) (hv : goodB v = true)
    (hg : goodObjB kvs = true) : goodObjB (upsert kvs k v) = true := by
  induction kvs with
  | nil => simp [upsert, goodObjB, hk, hv]
  | cons hd tl ih =>
      obtain ⟨k', v'⟩ := hd
      simp only [goodObjB, Bool.and_eq_true] at hg
      by_cases h0 : k' = k
      · simp [upsert, h0, goodObjB, hk, hv, hg.2]
      · simp [upsert, h0, goodObjB, hg.1.1, hg.1.2, ih hg.2]

theorem setPath_goodB (p : List String) :
    ∀ (g v g' : Json), (∀ k ∈ p, k.data.all plainCharB = true) →
      goodB g = true → goodB v = true →
      setPath g p v = some g' → goodB g' = true := by
  induction p with
  | nil =>
      intro g v g' _ _ hv hset
      simp [setPath] at hset
      exact hset ▸ hv
  | cons k ks ih =>
      intro g v g' hp hg hv hset
      have hk : k.data.all plainCharB = true := hp k (by simp)
      have hks : ∀ k' ∈ ks, k'.data.all plainCharB = true :=
        fun k' hm => hp k' (by simp [hm])
      match g with
      | .obj kvs =>
          simp only [setPath, Option.map_eq_some'] at hset
          obtain ⟨w, hw, hg'⟩ := hset
          subst hg'
          have hkvs : goodObjB kvs = true := by simpa [goodB] using hg
          have hinner : goodB ((jlookup kvs k).getD .null) = true := by
            cases hget : jlookup kvs k with
            | none => simp [goodB]
            | some i => simpa using goodB_jlookup kvs k i hget hkvs
          have hwgood := ih _ v w hks hinner hv hw
          simpa [goodB] using goodObjB_upsert kvs k w hk hwgood hkvs
      | .null =>
          simp only [setPath, Option.map_eq_some'] at hset
          obtain ⟨w, hw, hg'⟩ := hset
          subst hg'
          have hwgood := ih _ v w hks (by simp [goodB]) hv hw
          simp [goodB, goodObjB, hk, hwgood]
      | .bool b => simp [setPath] at hset
      | .num n => simp [setPath] at hset
      | .str s => simp [setPath] at hset
      | .arr xs => simp [setPath] at hset

theorem setSubtrees_goodB (g ccv accounts bank x : Json)
    (hg : goodB g = true) (hc : goodB ccv = true) (ha : goodB accounts = true)
    (hb : goodB bank = true) (h : setSubtrees g ccv accounts bank = some x) :
    goodB x = true := by
  simp only [setSubtrees, Option.bind_eq_some] at h
  obtain ⟨g1, h1, g2, h2, h3⟩ := h
  have k1 := setPath_goodB ["app_state", "ccvconsumer"]
    g ccv g1 (by intro k hk; fin_cases hk <;> decide) hg hc h1
  have k2 := setPath_goodB ["app_state", "auth", "accounts"]
    g1 accounts g2 (by intro k hk; fin_cases hk <;> decide) k1 ha h2
  exact setPath_goodB ["app_state", "bank"]
    g2 bank x (by intro k hk; fin_cases hk <;> decide) k2 hb h3

theorem substStr_goodS (s : String) (h : s.data.all plainCharB = true) :
    (substStr s).data.all plainCharB = true := by
  by_cases hs : s = "stake"
  · simp [substStr, hs]
    decide
  · simpa [substStr, hs] using h

mutual

theorem substJ_goodB : ∀ (j : Json), goodB j = true → goodB (substJ j) = true
  | .null, _ => rfl
  | .bool _, h => h
  | .num _, h => h
  | .str s, h => by
      simp only [goodB] at h
      simpa [substJ, goodB] using substStr_goodS s h
  | .arr xs, h => by
      simp only [goodB] at h
      simpa [substJ, goodB] using substArr_goodB xs h
  | .obj kvs, h => by
      simp only [goodB] at h
      simpa [substJ, goodB] using substObj_goodB kvs h

theorem substArr_goodB : ∀ (xs : List Json), goodArrB xs = true →
    goodArrB (substArr xs) = true
  | [], _ => rfl
  | x :: xs, h => by
      simp only [goodArrB, Bool.and_eq_true] at h
      simp [substArr, goodArrB, substJ_goodB x h.1, substArr_goodB xs h.2]

theorem substObj_goodB : ∀ (kvs : List (String × Json)), goodObjB kvs = true →
    goodObjB (substObj kvs) = true
  | [], _ => rfl
  | (k, v) :: kvs, h => by
      simp only [goodObjB, Bool.and_eq_true] at h
      simp [substObj, goodObjB, substStr_goodS k h.1.1, substJ_goodB v h.1.2,
        substObj_goodB kvs h.2]

end

/-! ## Roles, messages and events

The three role processes of the ICS basic scenario.  `tests/src/bin/ics_basic.rs`
names them `onomyd` (Provider), `consumer` (Consumer) and `hermes` (Relayer).
Each runner is embedded as the straight-line list of externally visible
events it performs on an error-free run, parameterized over the values it
receives (an oracle record): a received value is bound once and reused
exactly where the source reuses the corresponding variable. -/

inductive Role where
  | provider : Role
  | consumer : Role
  | relayer : Role
deriving DecidableEq, Repr

/-- One chain-side endpoint of an established IBC channel pair, as the
`IbcSide` value object of `onomy_test_lib::hermes` (chain id, connection
id, channel id, port). -/
structure ChainEnd where
  chain : String
  connection : String
  channel : String
  port : String
deriving DecidableEq, Repr

/-- `onomy_test_lib::hermes::IbcPair`: the endpoint descriptors produced
once by the Relayer (`a` is the consumer side, `b` the provider side). -/
structure IbcPair where
  a : ChainEnd
  b : ChainEnd
deriving DecidableEq, Repr

/-- A typed message payload carried over a rendezvous channel. -/
inductive Val where
  | vUnit : Val
  | vStr (s : String) : Val
  | vPair (p : IbcPair) : Val
deriving DecidableEq, Repr

/-- The message types of the `NetMessenger` exchanges: `()`, `String` and
`IbcPair`. -/
inductive MsgType where
  | unitT : MsgType
  | strT : MsgType
  | pairT : MsgType
deriving DecidableEq, Repr

def typeOfVal : Val → MsgType
  | .vUnit => .unitT
  | .vStr _ => .strT
  | .vPair _ => .pairT

/-- Externally visible actions of a role process. -/
inductive Ev where
  | listen (addr : String) : Ev
  | connect (addr : String) : Ev
  | send (dst : Role) (v : Val) : Ev
  | recv (src : Role) (v : Val) : Ev
  | startDaemon (log : String) : Ev
  | termDaemon (name : String) : Ev
  | driverCall (cmd : String) (args : List String) : Ev
  | relayCall (cmd : String) (args : List String) : Ev
  | fileRead (path : String) : Ev
  | fileWrite (path : String) (content : String) : Ev
  | ibcTransfer (side : ChainEnd) (account dst amount denom : String) : Ev
  | bankSend (account dst amount denom : String) : Ev
  | getBalances (addr : String) : Ev
  | assertEqStr (actual expected : String) : Ev
  | assertHas (present : Bool) : Ev
  | waitBlocks (n : Nat) : Ev
  | setGasDenom (denom : String) : Ev
  | sleepTimeout : Ev
deriving DecidableEq, Repr

/-! ## Library helpers used by the runners

These functions live in `onomy_test_lib`/`super_orchestrator`, outside the
provided sources, and are modelled from the spec. -/

/-- Modelled from the spec: `onomy_test_lib::token18` — formats a whole
number of 18-decimal tokens as a base-unit amount string with the given
denomination suffix (the source passes the float literal `100.0e3`, i.e.
100000 whole tokens; the model takes the whole-token count exactly). -/
def token18 (whole : Nat) (denom : String) : String :=
  Nat.repr (whole * 10 ^ 18) ++ denom

/-- Modelled from the spec: `onomy_test_lib::reprefix_bech32` — re-encodes
a bech32 address under the given human-readable prefix: the part before
the first separator `1` is replaced by the new prefix (checksum handling
is outside the model; with an unchanged prefix the address is unchanged). -/
def reprefixBech32 (addr pfx : String) : String :=
  ⟨pfx.data ++ '1' :: ((addr.data.dropWhile (fun c => c ≠ '1')).drop 1)⟩

def hexUpper (n : Nat) : Char :=
  (String.toList "0123456789ABCDEF").getD n '0'

def hexDigitsUpper : Nat → Nat → List Char
  | 0, _ => []
  | w + 1, n => hexDigitsUpper w (n / 16) ++ [hexUpper (n % 16)]

def mixHash (a : Nat) (c : Char) : Nat := (a * 131 + c.toNat) % (2 ^ 64)

/-- Modelled from the spec: the ICS-20 denomination-trace hash — a fixed
deterministic digest of the trace path rendered as upper-case hex (stands
in for SHA-256; the claims depend only on determinism and the output
shape). -/
def denomTraceHash (path : String) : String :=
  ⟨hexDigitsUpper 16 (path.data.foldl mixHash 5381)⟩

/-- Modelled from the spec: `IbcSide::get_ibc_denom` — derives the
canonical bridged-asset denomination for a base denomination sent over
this endpoint, `ibc/` followed by the denomination-trace hash of
`port/channel/base`. -/
def getIbcDenom (e : ChainEnd) (base : String) : String :=
  "ibc/" ++ denomTraceHash (e.port ++ "/" ++ e.channel ++ "/" ++ base)

/-- The consumer-side transfer endpoint the scenario establishes (chain
`market`, first connection and channel, `transfer` port). -/
def scenarioTransferEnd : ChainEnd :=
  { chain := "market", connection := "connection-0", channel := "channel-0",
    port := "transfer" }

/-- Modelled from the spec: the library constant `ONOMY_IBC_NOM`, the
expected bridged denomination of `anom` over the scenario's fixed transfer
endpoint. -/
def ONOMY_IBC_NOM : String := getIbcDenom scenarioTransferEnd "anom"

/-- The fixed provider-side test address of the scenario. -/
def fixedTestAddr : String := "onomy1gk7lg5kd73mcr8xuyw727ys22t7mtz9gh07ul3"

/-- The transaction flags of `src/bin/ics_basic.rs` `gas_args`. -/
def gasArgs : List String :=
  ["--gas", "auto", "--gas-adjustment", "1.3", "-y", "-b", "block", "--from",
    "validator"]

/-! ## The tests-variant runners (`tests/src/bin/ics_basic.rs`) -/

/-- Oracle for `hermes_runner`: the values it receives and produces. -/
structure HermesIn where
  mnemonic : String
  pair : IbcPair
  ibcNom : String
deriving Repr

/-- The Relayer runner `hermes_runner` (lines 138-180). -/
def hermesRun (i : HermesIn) : List Ev :=
  [.listen "0.0.0.0:26000",
   .recv .provider (.vStr i.mnemonic),
   .fileWrite "/root/.hermes/mnemonic.txt" i.mnemonic,
   .relayCall "keys add --chain onomy --mnemonic-file /root/.hermes/mnemonic.txt" [],
   .relayCall "keys add --chain market --mnemonic-file /root/.hermes/mnemonic.txt" [],
   .recv .provider .vUnit,
   .relayCall "hermes_setup_pair" ["market", "onomy"],
   .startDaemon "/logs/hermes_bootstrap_runner.log",
   .relayCall "hermes_check_acks" [],
   .send .provider (.vPair i.pair),
   .recv .provider (.vStr i.ibcNom),
   .termDaemon "hermes",
   .setGasDenom i.ibcNom,
   .startDaemon "/logs/hermes_runner.log",
   .send .provider .vUnit,
   .recv .provider .vUnit,
   .termDaemon "hermes"]

/-- Oracle for `onomyd_runner`. -/
structure OnomydIn where
  daemonHome : String
  mnemonic : String
  addr : String
  ccvState : String
  nodeKey : String
  privValKey : String
  pair : IbcPair
  ibcNom : String
  balAnom : String
  exported : String
deriving Repr

/-- The Provider runner `onomyd_runner` (lines 182-269). -/
def onomydRun (i : OnomydIn) : List Ev :=
  [.connect "hermes:26000",
   .connect "marketd:26001",
   .driverCall "onomyd_setup" [i.daemonHome],
   .send .relayer (.vStr i.mnemonic),
   .driverCall "cosmovisor_get_addr" ["validator"],
   .startDaemon "onomyd_runner.log",
   .driverCall "cosmovisor_add_consumer" [i.daemonHome, "market"],
   .send .consumer (.vStr i.ccvState),
   .fileRead (i.daemonHome ++ "/config/node_key.json"),
   .send .consumer (.vStr i.nodeKey),
   .fileRead (i.daemonHome ++ "/config/priv_validator_key.json"),
   .send .consumer (.vStr i.privValKey),
   .recv .consumer .vUnit,
   .send .relayer .vUnit,
   .recv .relayer (.vPair i.pair),
   .ibcTransfer i.pair.b "validator" (reprefixBech32 i.addr "onomy")
     (token18 100000 "") "anom",
   .waitBlocks 4,
   .send .consumer (.vPair i.pair),
   .recv .consumer (.vStr i.ibcNom),
   .send .relayer (.vStr i.ibcNom),
   .recv .relayer .vUnit,
   .send .consumer .vUnit,
   .recv .consumer .vUnit,
   .getBalances fixedTestAddr,
   .assertEqStr i.balAnom "5000",
   .send .relayer .vUnit,
   .send .consumer .vUnit,
   .termDaemon "cosmovisor",
   .driverCall "export" [],
   .fileWrite "/logs/onomyd_export.json" i.exported]

/-- Oracle for the tests-variant `consumer` runner. -/
structure ConsumerIn where
  daemonHome : String
  ccvState : String
  nodeKey : String
  privValKey : String
  addr : String
  pair : IbcPair
  hasIbcNom : Bool
  dstBal : String
  exported : String
deriving Repr

/-- The Consumer runner `consumer` (lines 272-395).  The bridged
denomination is derived from the received pair's consumer side, exactly as
`ibc_pair.a.get_ibc_denom("anom")`. -/
def consumerRun (i : ConsumerIn) : List Ev :=
  [.listen "0.0.0.0:26001",
   .recv .provider (.vStr i.ccvState),
   .driverCall "marketd_setup" [i.daemonHome, "market"],
   .driverCall "set_minimum_gas_price" [i.daemonHome, "1anative"],
   .recv .provider (.vStr i.nodeKey),
   .fileWrite (i.daemonHome ++ "/config/node_key.json") i.nodeKey,
   .recv .provider (.vStr i.privValKey),
   .fileWrite (i.daemonHome ++ "/config/priv_validator_key.json") i.privValKey,
   .startDaemon "marketd_bootstrap_runner.log",
   .driverCall "cosmovisor_get_addr" ["validator"],
   .send .provider .vUnit,
   .recv .provider (.vPair i.pair),
   .assertEqStr (getIbcDenom i.pair.a "anom") ONOMY_IBC_NOM,
   .getBalances i.addr,
   .assertHas i.hasIbcNom,
   .termDaemon "cosmovisor",
   .setGasDenom ("1" ++ getIbcDenom i.pair.a "anom"),
   .startDaemon "marketd_runner.log",
   .send .provider (.vStr (getIbcDenom i.pair.a "anom")),
   .recv .provider .vUnit,
   .bankSend i.addr (reprefixBech32 fixedTestAddr "onomy") "5000"
     (getIbcDenom i.pair.a "anom"),
   .getBalances (reprefixBech32 fixedTestAddr "onomy"),
   .assertEqStr i.dstBal "5000",
   .ibcTransfer i.pair.a "validator" (reprefixBech32 fixedTestAddr "onomy") "5000"
     (getIbcDenom i.pair.a "anom"),
   .waitBlocks 4,
   .send .provider .vUnit,
   .recv .provider .vUnit,
   .termDaemon "cosmovisor",
   .driverCall "export" [],
   .fileWrite "/logs/market_export.json" i.exported]

/-! ## The src-variant runners (`src/bin/ics_basic.rs`) -/

inductive RunError where
  | timeoutError : RunError
  | panicErr : RunError
deriving DecidableEq, Repr

/-- Modelled from the spec: the `super_orchestrator` retry constants
(values representative; the theorems quantify over the retry count). -/
def STD_TRIES : Nat := 300

def STD_DELAY_MS : Nat := 300

def waitForHeightAux (target : Nat) (heights : Nat → Nat) :
    Nat → Nat → Except RunError Nat
  | _, 0 => .error .timeoutError
  | i, remaining + 1 =>
      if target ≤ heights i then .ok i
      else waitForHeightAux target heights (i + 1) remaining

/-- Modelled from the spec: `common::cosmovisor::wait_for_height` (the
`common` crate is not under the provided sources) — a bounded polling
wait: fixed retry count times fixed delay, each attempt re-queries the
chain height (`heights i` is the height the `i`-th poll observes),
succeeding on the first observation meeting the target and failing with a
timeout error once the retries are exhausted.  Returns the index of the
successful poll, so the number of polls made is that index plus one. -/
def waitForHeight (tries _delayMs target : Nat) (heights : Nat → Nat) :
    Except RunError Nat :=
  waitForHeightAux target heights 0 tries

/-- The consumer-addition proposal document of `src/bin/ics_basic.rs`
lines 234-252 (the source holds it as a pretty-printed literal with the
same content). -/
def consumerAddProposal : Json :=
  .obj [("title", .str "Propose the addition of a new chain"),
    ("description", .str "add consumer chain market"),
    ("chain_id", .str "market"),
    ("initial_height", .obj [("revision_number", .num 0),
      ("revision_height", .num 1)]),
    ("genesis_hash", .str "Z2VuX2hhc2g="),
    ("binary_hash", .str "YmluX2hhc2g="),
    ("spawn_time", .str "2023-05-18T01:15:49.83019476-05:00"),
    ("consumer_redistribution_fraction", .str "0.75"),
    ("blocks_per_distribution_transmission", .num 1000),
    ("historical_entries", .num 10000),
    ("ccv_timeout_period", .num 2419200000000000),
    ("transfer_timeout_period", .num 3600000000000),
    ("unbonding_period", .num 1728000000000000),
    ("deposit", .str "2000000000000000000000anom")]

def proposalS : String := ⟨serJ consumerAddProposal⟩

/-- The consensus-pubkey JSON fragment built by string pasting at
lines 293-295. -/
def consensusPubkey (valsetValue : String) : String :=
  "\x7b\"@type\":\"/cosmos.crypto.ed25519.PubKey\",\"key\":\"" ++ valsetValue
    ++ "\"\x7d\x7d"

/-- Oracle for the src-variant `onomyd_runner`. -/
structure SrcOnomydIn where
  daemonHome : String
  mnemonic : String
  valsetValue : String
  ccvState : String
  genesis : Json
  nodeKey : String
  privValKey : String
  heights : Nat → Nat

/-- The src-variant Provider runner (lines 218-351): submits the
consumer-addition proposal, votes yes on proposal `"1"`, assigns the
consensus key, waits for height 5 with the bounded polling wait (fatal on
timeout: the trace stops and the error propagates), then distributes
state to its peers.  Returns the events performed and the terminating
error, if any. -/
def srcOnomydRun (i : SrcOnomydIn) : List Ev × Option RunError :=
  let pre : List Ev :=
    [.connect "hermes:26000",
     .connect "marketd:26001",
     .driverCall "onomyd_setup" [i.daemonHome],
     .startDaemon "onomyd_runner.log",
     .fileWrite (i.daemonHome ++ "/config/consumer_add_proposal.json") proposalS,
     .driverCall "tx gov submit-proposal consumer-addition"
       ([i.daemonHome ++ "/config/consumer_add_proposal.json"] ++ gasArgs),
     .driverCall "tx gov vote" (["1", "yes"] ++ gasArgs),
     .driverCall "query tendermint-validator-set" [],
     .driverCall "tx provider assign-consensus-key market"
       ([consensusPubkey i.valsetValue] ++ gasArgs)]
  match waitForHeight STD_TRIES STD_DELAY_MS 5 i.heights with
  | .error e => (pre, some e)
  | .ok _ =>
      (pre ++
        [.driverCall "query provider consumer-genesis market -o json" [],
         .send .relayer (.vStr i.mnemonic),
         .send .consumer (.vStr i.ccvState),
         .fileRead (i.daemonHome ++ "/config/genesis.json"),
         .send .consumer (.vStr
           ⟨serJ ((getPath i.genesis ["app_state", "auth", "accounts"]).getD .null)⟩),
         .send .consumer (.vStr
           ⟨serJ ((getPath i.genesis ["app_state", "bank"]).getD .null)⟩),
         .fileRead (i.daemonHome ++ "/config/node_key.json"),
         .send .consumer (.vStr i.nodeKey),
         .fileRead (i.daemonHome ++ "/config/priv_validator_key.json"),
         .send .consumer (.vStr i.privValKey),
         .recv .consumer .vUnit,
         .send .relayer .vUnit,
         .recv .relayer .vUnit,
         .sleepTimeout,
         .termDaemon "cosmovisor"], none)

/-- Oracle for the src-variant `marketd_runner`.  Received fragments
arrive as text and are parsed by `serde_json` (external); the oracle
supplies both the received text and its parsed document. -/
structure SrcMarketdIn where
  daemonHome : String
  ccvStateS : String
  ccvState : Json
  accountsS : String
  accounts : Json
  bankS : String
  bank : Json
  genesis : Json
  nodeKey : String
  privValKey : String
deriving Repr

def marketdGenesisPath (daemonHome : String) : String :=
  daemonHome ++ "/config/genesis.json"

/-- The genesis text `marketd_runner` writes back: the three subtree
overwrites followed by `.to_string().replace("\"stake\"", "\"anom\"")`
(lines 379-383); `none` models the `serde_json` indexing panic on a
non-object genesis. -/
def patchedGenesisString (genesis ccv accounts bank : Json) : Option String :=
  (setSubtrees genesis ccv accounts bank).map
    (fun x => strReplace ⟨serJ x⟩ "\"stake\"" "\"anom\"")

/-- The src-variant Consumer runner `marketd_runner` (lines 353-411). -/
def srcMarketdRun (i : SrcMarketdIn) : List Ev × Option RunError :=
  let pre : List Ev :=
    [.listen "0.0.0.0:26001",
     .driverCall "config chain-id" ["market"],
     .driverCall "config keyring-backend test" [],
     .driverCall "init --overwrite" ["market"],
     .recv .provider (.vStr i.ccvStateS),
     .recv .provider (.vStr i.accountsS),
     .recv .provider (.vStr i.bankS),
     .fileRead (marketdGenesisPath i.daemonHome)]
  match patchedGenesisString i.genesis i.ccvState i.accounts i.bank with
  | none => (pre, some .panicErr)
  | some out =>
      (pre ++
        [.fileWrite (marketdGenesisPath i.daemonHome) out,
         .fileWrite "/logs/market_genesis.json" out,
         .recv .provider (.vStr i.nodeKey),
         .fileWrite (i.daemonHome ++ "/config/node_key.json") i.nodeKey,
         .recv .provider (.vStr i.privValKey),
         .fileWrite (i.daemonHome ++ "/config/priv_validator_key.json")
           i.privValKey,
         .startDaemon "marketd_runner.log",
         .send .provider .vUnit,
         .sleepTimeout,
         .termDaemon "cosmovisor"], none)

/-- Oracle for the src-variant `hermes_runner`. -/
structure SrcHermesIn where
  mnemonic : String
  transferChannelPair : String × String
  icsChannelPair : String × String
deriving Repr

/-- The src-variant Relayer runner (lines 123-216). -/
def srcHermesRun (i : SrcHermesIn) : List Ev :=
  [.listen "0.0.0.0:26000",
   .recv .provider (.vStr i.mnemonic),
   .fileWrite "/root/.hermes/mnemonic.txt" i.mnemonic,
   .relayCall "keys add --chain onomy --mnemonic-file /root/.hermes/mnemonic.txt" [],
   .relayCall "keys add --chain market --mnemonic-file /root/.hermes/mnemonic.txt" [],
   .recv .provider .vUnit,
   .relayCall "create connection" ["market", "onomy"],
   .relayCall "create channel" ["transfer", "transfer"],
   .relayCall "create channel" ["consumer", "provider"],
   .startDaemon "/logs/hermes_runner.log",
   .relayCall "query packet acks --chain onomy --port transfer --channel"
     [i.transferChannelPair.1],
   .relayCall "query packet acks --chain market --port transfer --channel"
     [i.transferChannelPair.2],
   .relayCall "query packet acks --chain onomy --port provider --channel"
     [i.icsChannelPair.1],
   .relayCall "query packet acks --chain market --port consumer --channel"
     [i.icsChannelPair.2],
   .send .provider .vUnit,
   .sleepTimeout,
   .termDaemon "hermes"]

/-! ## Entry-name dispatch of the binaries -/

inductive MainAction where
  | runRole (name : String) : MainAction
  | launchScenario : MainAction
  | errorOut (msg : String) : MainAction
deriving DecidableEq, Repr

/-- The dispatch of `tests/src/bin/ics_basic.rs::main` (lines 36-58). -/
def testsIcsMain : Option String → MainAction
  | none => .launchScenario
  | some s =>
      if s = "onomyd" then .runRole "onomyd"
      else if s = "consumer" then .runRole "consumer"
      else if s = "hermes" then .runRole "hermes"
      else .errorOut ("entry_name \"" ++ s ++ "\" is not recognized")

/-- The dispatch of `src/bin/ics_basic.rs::main` (lines 31-41). -/
def srcIcsMain : Option String → MainAction
  | none => .launchScenario
  | some s =>
      if s = "onomyd" then .runRole "onomyd"
      else if s = "marketd" then .runRole "marketd"
      else if s = "hermes" then .runRole "hermes"
      else .errorOut ("entrypoint \"" ++ s ++ "\" is not recognized")

/-- The dispatch of `tests/src/bin/geth_test.rs::main` (lines 22-31). -/
def gethMain : Option String → MainAction
  | none => .launchScenario
  | some s =>
      if s = "geth" then .runRole "geth"
      else if s = "test" then .runRole "test"
      else .errorOut ("entry_name \"" ++ s ++ "\" is not recognized")

/-! ## Trace observers -/

/-- The ordered message types a trace sends to a given peer. -/
def sendsTo (evs : List Ev) (r : Role) : List MsgType :=
  evs.filterMap (fun e =>
    match e with
    | .send r' v => if r' = r then some (typeOfVal v) else none
    | _ => none)

/-- The ordered message types a trace's receives expect from a given peer. -/
def recvsFrom (evs : List Ev) (r : Role) : List MsgType :=
  evs.filterMap (fun e =>
    match e with
    | .recv r' v => if r' = r then some (typeOfVal v) else none
    | _ => none)

def listensOf (evs : List Ev) : List String :=
  evs.filterMap (fun e =>
    match e with
    | .listen a => some a
    | _ => none)

def connectsOf (evs : List Ev) : List String :=
  evs.filterMap (fun e =>
    match e with
    | .connect a => some a
    | _ => none)

def isChanOp : Ev → Bool
  | .send _ _ => true
  | .recv _ _ => true
  | _ => false

def isTermEv : Ev → Bool
  | .termDaemon _ => true
  | _ => false

/-- All runtime assertions of a trace hold (the happy path). -/
def assertsOkB : List Ev → Bool
  | [] => true
  | e :: rest =>
      (match e with
       | .assertEqStr actual expected => actual == expected
       | .assertHas present => present
       | _ => true) && assertsOkB rest

def amountNatAux : List Char → Nat → Nat
  | [], acc => acc
  | c :: cs, acc =>
      if 48 ≤ c.toNat ∧ c.toNat ≤ 57 then amountNatAux cs (acc * 10 + (c.toNat - 48))
      else acc

/-- Reads the leading base-unit numeral of an amount string. -/
def amountNat (s : String) : Nat := amountNatAux s.data 0

/-- Modelled from the spec: once relaying of an IBC transfer settles, the
destination chain has minted exactly the transferred base-unit amount of
the bridged denomination (chain ledgers are external collaborators). -/
def bridgedBalanceAfterTransfer (amountBaseUnits : Nat) : Nat := amountBaseUnits

/-! ## Channel-level semantics for the abort scenario

For the timeout claim the three runners are projected to their channel
operations and executed jointly over FIFO queues, with the Relayer
replaced by a faulty variant that never performs its `IbcPair` send. -/

inductive CAct where
  | snd (peer : Role) (t : MsgType) : CAct
  | rcv (peer : Role) (t : MsgType) : CAct
deriving DecidableEq, Repr

def chanOps (evs : List Ev) : List CAct :=
  evs.filterMap (fun e =>
    match e with
    | .send r v => some (.snd r (typeOfVal v))
    | .recv r v => some (.rcv r (typeOfVal v))
    | _ => none)

def onomyTransferEnd : ChainEnd :=
  { chain := "onomy", connection := "connection-0", channel := "channel-0",
    port := "transfer" }

def defaultPair : IbcPair :=
  { a := scenarioTransferEnd, b := onomyTransferEnd }

def defaultHermesIn : HermesIn :=
  { mnemonic := "m", pair := defaultPair, ibcNom := ONOMY_IBC_NOM }

def defaultOnomydIn : OnomydIn :=
  { daemonHome := "/root/.onomy", mnemonic := "m", addr := "onomy1q",
    ccvState := "c", nodeKey := "n", privValKey := "p", pair := defaultPair,
    ibcNom := ONOMY_IBC_NOM, balAnom := "5000", exported := "e" }

def defaultConsumerIn : ConsumerIn :=
  { daemonHome := "/root/.onomy_market", ccvState := "c", nodeKey := "n",
    privValKey := "p", addr := "onomy1q", pair := defaultPair,
    hasIbcNom := true, dstBal := "5000", exported := "e" }

/-- The Relayer's channel-operation script. -/
def hermesScript : List CAct := chanOps (hermesRun defaultHermesIn)

/-- The Provider's channel-operation script. -/
def onomydScript : List CAct := chanOps (onomydRun defaultOnomydIn)

/-- The Consumer's channel-operation script. -/
def consumerScript : List CAct := chanOps (consumerRun defaultConsumerIn)

/-- The faulty Relayer of the abort scenario: it stalls just before its
`IbcPair` send (script index 2) and never sends anything. -/
def hermesFaultyScript : List CAct := hermesScript.take 2

/-- Joint state: one program counter per role and one FIFO queue per
directed channel half (R = Relayer, P = Provider, C = Consumer). -/
structure JState where
  pcR : Nat
  pcP : Nat
  pcC : Nat
  qRP : List MsgType
  qPR : List MsgType
  qPC : List MsgType
  qCP : List MsgType
deriving DecidableEq, Repr

def initJState : JState :=
  { pcR := 0, pcP := 0, pcC := 0, qRP := [], qPR := [], qPC := [], qCP := [] }

/-- One step of the joint execution with the faulty Relayer: a send
enqueues on the sender-to-peer queue, a receive blocks until the head of
the peer-to-receiver queue is the expected message. -/
inductive JStep : JState → JState → Prop where
  | relayerSend (s : JState) (t : MsgType) :
      hermesFaultyScript.get? s.pcR = some (.snd .provider t) →
      JStep s { s with pcR := s.pcR + 1, qRP := s.qRP ++ [t] }
  | relayerRecv (s : JState) (t : MsgType) (rest : List MsgType) :
      hermesFaultyScript.get? s.pcR = some (.rcv .provider t) →
      s.qPR = t :: rest →
      JStep s { s with pcR := s.pcR + 1, qPR := rest }
  | providerSendR (s : JState) (t : MsgType) :
      onomydScript.get? s.pcP = some (.snd .relayer t) →
      JStep s { s with pcP := s.pcP + 1, qPR := s.qPR ++ [t] }
  | providerSendC (s : JState) (t : MsgType) :
      onomydScript.get? s.pcP = some (.snd .consumer t) →
      JStep s { s with pcP := s.pcP + 1, qPC := s.qPC ++ [t] }
  | providerRecvR (s : JState) (t : MsgType) (rest : List MsgType) :
      onomydScript.get? s.pcP = some (.rcv .relayer t) →
      s.qRP = t :: rest →
      JStep s { s with pcP := s.pcP + 1, qRP := rest }
  | providerRecvC (s : JState) (t : MsgType) (rest : List MsgType) :
      onomydScript.get? s.pcP = some (.rcv .consumer t) →
      s.qCP = t :: rest →
      JStep s { s with pcP := s.pcP + 1, qCP := rest }
  | consumerSend (s : JState) (t : MsgType) :
      consumerScript.get? s.pcC = some (.snd .provider t) →
      JStep s { s with pcC := s.pcC + 1, qCP := s.qCP ++ [t] }
  | consumerRecv (s : JState) (t : MsgType) (rest : List MsgType) :
      consumerScript.get? s.pcC = some (.rcv .provider t) →
      s.qPC = t :: rest →
      JStep s { s with pcC := s.pcC + 1, qPC := rest }

/-- Reachability of the faulty joint execution. -/
def ReachFaulty (s : JState) : Prop :=
  Relation.ReflTransGen JStep initJState s

/-- The script index of the Provider's blocking `IbcPair` receive. -/
def recvPairIdx : Nat := 6

theorem c7_step_inv (s s' : JState) (hs : JStep s s') (hq : s.qRP = [])
    (hpc : s.pcP ≤ recvPairIdx) : s'.qRP = [] ∧ s'.pcP ≤ recvPairIdx := by
  cases hs with
  | relayerSend t h =>
      match hn : s.pcR with
      | 0 =>
          rw [hn] at h
          rw [show hermesFaultyScript.get? 0
              = some (CAct.rcv .provider .strT) from rfl] at h
          simp at h
      | 1 =>
          rw [hn] at h
          rw [show hermesFaultyScript.get? 1
              = some (CAct.rcv .provider .unitT) from rfl] at h
          simp at h
      | n + 2 =>
          rw [hn] at h
          rw [show hermesFaultyScript
              = [CAct.rcv .provider .strT, CAct.rcv .provider .unitT] from rfl] at h
          simp at h
  | relayerRecv t rest h h2 => exact ⟨hq, hpc⟩
  | providerSendR t h =>
      refine ⟨hq, ?_⟩
      simp only [recvPairIdx] at hpc ⊢
      rcases Nat.lt_or_ge s.pcP 6 with hlt | hge
      · omega
      · have h6 : s.pcP = 6 := le_antisymm hpc hge
        rw [h6] at h
        rw [show onomydScript.get? 6
            = some (CAct.rcv .relayer .pairT) from rfl] at h
        simp at h
  | providerSendC t h =>
      refine ⟨hq, ?_⟩
      simp only [recvPairIdx] at hpc ⊢
      rcases Nat.lt_or_ge s.pcP 6 with hlt | hge
      · omega
      · have h6 : s.pcP = 6 := le_antisymm hpc hge
        rw [h6] at h
        rw [show onomydScript.get? 6
            = some (CAct.rcv .relayer .pairT) from rfl] at h
        simp at h
  | providerRecvR t rest h h2 =>
      rw [hq] at h2
      cases h2
  | providerRecvC t rest h h2 =>
      refine ⟨hq, ?_⟩
      simp only [recvPairIdx] at hpc ⊢
      rcases Nat.lt_or_ge s.pcP 6 with hlt | hge
      · omega
      · have h6 : s.pcP = 6 := le_antisymm hpc hge
        rw [h6] at h
        rw [show onomydScript.get? 6
            = some (CAct.rcv .relayer .pairT) from rfl] at h
        simp at h
  | consumerSend t h => exact ⟨hq, hpc⟩
  | consumerRecv t rest h h2 => exact ⟨hq, hpc⟩

/-- Inductive invariant of the faulty run: the Relayer-to-Provider queue
stays empty and the Provider never advances past its `IbcPair` receive. -/
theorem c7_reach_inv (s : JState) (h : ReachFaulty s) :
    s.qRP = [] ∧ s.pcP ≤ recvPairIdx := by
  induction h with
  | refl => exact ⟨rfl, by decide⟩
  | tail h1 h2 ih => exact c7_step_inv _ _ h2 ih.1 ih.2

/-! ## Harness and channel timeout outcomes (spec-modelled) -/

structure ScenarioReport where
  passed : Bool
  runningRoles : List Role
deriving DecidableEq, Repr

/-- Modelled from the spec: `ContainerNetwork::wait_with_timeout_all` — on
expiry of the global timeout every role container is forcibly stopped and
the scenario is reported failed. -/
def harnessOnGlobalTimeout : ScenarioReport :=
  { passed := false, runningRoles := [] }

inductive RecvOutcome where
  | gotMsg (t : MsgType) : RecvOutcome
  | timedOut : RecvOutcome
deriving DecidableEq, Repr

/-- Modelled from the spec: a blocking `NetMessenger` receive returns the
delivered message, or fails with a timeout error when nothing is delivered
before the channel-level timeout. -/
def recvOutcomeOf (delivered : Option MsgType) : RecvOutcome :=
  match delivered with
  | some t => .gotMsg t
  | none => .timedOut

/-! ## Claim theorems -/

/-- C1: for both communicating role pairs of the ICS basic scenario
(Provider–Relayer and Provider–Consumer), the ordered sequence of message
types one endpoint sends over their rendezvous channel is exactly equal,
type for type, to the ordered sequence the other endpoint's receives
expect, so on an error-free run the `n`-th blocking receive in each
direction expects precisely the type of the `n`-th message sent. -/
theorem protocol_symmetry (hi : HermesIn) (oi : OnomydIn) (ci : ConsumerIn) :
    sendsTo (onomydRun oi) .relayer = recvsFrom (hermesRun hi) .provider
    ∧ sendsTo (hermesRun hi) .provider = recvsFrom (onomydRun oi) .relayer
    ∧ sendsTo (onomydRun oi) .consumer = recvsFrom (consumerRun ci) .provider
    ∧ sendsTo (consumerRun ci) .provider = recvsFrom (onomydRun oi) .consumer
    ∧ (∀ n, (recvsFrom (hermesRun hi) .provider).get? n
        = (sendsTo (onomydRun oi) .relayer).get? n)
    ∧ (∀ n, (recvsFrom (onomydRun oi) .relayer).get? n
        = (sendsTo (hermesRun hi) .provider).get? n)
    ∧ (∀ n, (recvsFrom (consumerRun ci) .provider).get? n
        = (sendsTo (onomydRun oi) .consumer).get? n)
    ∧ (∀ n, (recvsFrom (onomydRun oi) .consumer).get? n
        = (sendsTo (consumerRun ci) .provider).get? n) := by
  refine ⟨rfl, rfl, rfl, rfl, fun n => rfl, fun n => rfl, fun n => rfl, fun n => rfl⟩

/-- C9: for each binary, every entry-name value outside its recognized set
makes `main` return the unrecognized-entry error (running no role and
launching nothing), and only the absence of the entry name selects the
top-level scenario launcher. -/
theorem entry_name_dispatch :
    (∀ s : String, s ≠ "onomyd" → s ≠ "consumer" → s ≠ "hermes" →
      testsIcsMain (some s)
        = .errorOut ("entry_name \"" ++ s ++ "\" is not recognized"))
    ∧ (∀ s : String, s ≠ "onomyd" → s ≠ "marketd" → s ≠ "hermes" →
      srcIcsMain (some s)
        = .errorOut ("entrypoint \"" ++ s ++ "\" is not recognized"))
    ∧ (∀ s : String, s ≠ "geth" → s ≠ "test" →
      gethMain (some s)
        = .errorOut ("entry_name \"" ++ s ++ "\" is not recognized"))
    ∧ (∀ s : String, testsIcsMain (some s) ≠ .launchScenario)
    ∧ (∀ s : String, srcIcsMain (some s) ≠ .launchScenario)
    ∧ (∀ s : String, gethMain (some s) ≠ .launchScenario)
    ∧ testsIcsMain none = .launchScenario
    ∧ srcIcsMain none = .launchScenario
    ∧ gethMain none = .launchScenario := by
  refine ⟨?_, ?_, ?_, ?_, ?_, ?_, rfl, rfl, rfl⟩
  · intro s h1 h2 h3
    simp [testsIcsMain, h1, h2, h3]
  · intro s h1 h2 h3
    simp [srcIcsMain, h1, h2, h3]
  · intro s h1 h2
    simp [gethMain, h1, h2]
  · intro s
    simp only [testsIcsMain]
    split
    · simp
    · split
      · simp
      · split
        · simp
        · simp
  · intro s
    simp only [srcIcsMain]
    split
    · simp
    · split
      · simp
      · split
        · simp
        · simp
  · intro s
    simp only [gethMain]
    split
    · simp
    · split
      · simp
      · simp

theorem entry_name_dispatch_witness :
    testsIcsMain (some "bogus")
      = .errorOut ("entry_name \"" ++ "bogus" ++ "\" is not recognized")
    ∧ srcIcsMain (some "bogus")
      = .errorOut ("entrypoint \"" ++ "bogus" ++ "\" is not recognized")
    ∧ gethMain (some "bogus")
      = .errorOut ("entry_name \"" ++ "bogus" ++ "\" is not recognized") :=
  ⟨entry_name_dispatch.1 "bogus" (by decide) (by decide) (by decide),
   entry_name_dispatch.2.1 "bogus" (by decide) (by decide) (by decide),
   entry_name_dispatch.2.2.1 "bogus" (by decide) (by decide)⟩

/-- C10: the Relayer and the Consumer share no rendezvous channel — the
Relayer listens once on port 26000 and the Consumer once on port 26001,
the Provider opens exactly the two connections to them, neither the
Relayer nor the Consumer ever addresses the other, and the `IbcPair`, the
updated gas denomination, the restart signal and the termination signals
all pass through the Provider (received on one channel, re-sent on the
other). -/
theorem star_topology_forwarding (hi : HermesIn) (oi : OnomydIn) (ci : ConsumerIn) :
    listensOf (hermesRun hi) = ["0.0.0.0:26000"]
    ∧ connectsOf (hermesRun hi) = []
    ∧ listensOf (consumerRun ci) = ["0.0.0.0:26001"]
    ∧ connectsOf (consumerRun ci) = []
    ∧ listensOf (onomydRun oi) = []
    ∧ connectsOf (onomydRun oi) = ["hermes:26000", "marketd:26001"]
    ∧ sendsTo (hermesRun hi) .consumer = []
    ∧ recvsFrom (hermesRun hi) .consumer = []
    ∧ sendsTo (consumerRun ci) .relayer = []
    ∧ recvsFrom (consumerRun ci) .relayer = []
    ∧ (onomydRun oi).get? 14 = some (.recv .relayer (.vPair oi.pair))
    ∧ (onomydRun oi).get? 17 = some (.send .consumer (.vPair oi.pair))
    ∧ (onomydRun oi).get? 18 = some (.recv .consumer (.vStr oi.ibcNom))
    ∧ (onomydRun oi).get? 19 = some (.send .relayer (.vStr oi.ibcNom))
    ∧ (onomydRun oi).get? 20 = some (.recv .relayer .vUnit)
    ∧ (onomydRun oi).get? 21 = some (.send .consumer .vUnit)
    ∧ (onomydRun oi).get? 25 = some (.send .relayer .vUnit)
    ∧ (onomydRun oi).get? 26 = some (.send .consumer .vUnit) := by
  refine ⟨rfl, rfl, rfl, rfl, rfl, rfl, rfl, rfl, rfl, rfl, rfl, rfl, rfl, rfl,
    rfl, rfl, rfl, rfl⟩

theorem waitForHeightAux_ok (target : Nat) (heights : Nat → Nat) :
    ∀ (tries i0 : Nat), (∃ j, j < tries ∧ target ≤ heights (i0 + j)) →
      ∃ k, waitForHeightAux target heights i0 tries = .ok k ∧ i0 ≤ k
        ∧ k < i0 + tries ∧ target ≤ heights k
        ∧ (∀ j, i0 ≤ j → j < k → heights j < target) := by
  intro tries
  induction tries with
  | zero =>
      intro i0 h
      obtain ⟨j, hj, _⟩ := h
      omega
  | succ t ih =>
      intro i0 h
      by_cases h0 : target ≤ heights i0
      · refine ⟨i0, ?_, le_refl _, by omega, h0, ?_⟩
        · simp [waitForHeightAux, h0]
        · intro j hj1 hj2
          omega
      · obtain ⟨j, hj, hge⟩ := h
        have hj0 : j ≠ 0 := by
          intro hc
          subst hc
          simp at hge
          omega
        obtain ⟨j', rfl⟩ := Nat.exists_eq_succ_of_ne_zero hj0
        have hnext : ∃ j, j < t ∧ target ≤ heights (i0 + 1 + j) := by
          refine ⟨j', by omega, ?_⟩
          have : i0 + 1 + j' = i0 + (j' + 1) := by omega
          rw [this]
          exact hge
        obtain ⟨k, hk1, hk2, hk3, hk4, hk5⟩ := ih (i0 + 1) hnext
        refine ⟨k, ?_, by omega, by omega, hk4, ?_⟩
        · simp [waitForHeightAux, h0, hk1]
        · intro j hj1 hj2
          by_cases hji : j = i0
          · subst hji
            omega
          · exact hk5 j (by omega) hj2

theorem waitForHeightAux_timeout (target : Nat) (heights : Nat → Nat) :
    ∀ (tries i0 : Nat), (∀ j, j < tries → heights (i0 + j) < target) →
      waitForHeightAux target heights i0 tries = .error .timeoutError := by
  intro tries
  induction tries with
  | zero =>
      intro i0 _
      rfl
  | succ t ih =>
      intro i0 h
      have h0 : heights i0 < target := by
        have := h 0 (by omega)
        simpa using this
      have hrec := ih (i0 + 1) (by
        intro j hj
        have := h (j + 1) (by omega)
        have he : i0 + (j + 1) = i0 + 1 + j := by omega
        rw [he] at this
        exact this)
      simp [waitForHeightAux, Nat.not_le.mpr h0, hrec]

/-- C3: the bounded polling wait `wait_for_height(T, D, H)` against a
scripted monotonically increasing height sequence succeeds exactly at the
first poll that observes a height of at least `H`, making at most `T`
polls in total; if none of the first `T` polled heights reaches `H`, it
fails with a timeout error; and in the src-variant Provider runner that
failure is fatal: the run stops right there (no later event happens, in
particular no message is sent and the wait is never re-entered). -/
theorem wait_for_height_bounded_polling :
    (∀ (tries delayMs target : Nat) (heights : Nat → Nat), Monotone heights →
      (∃ i, i < tries ∧ target ≤ heights i) →
      ∃ i0, waitForHeight tries delayMs target heights = .ok i0
        ∧ target ≤ heights i0 ∧ (∀ j, j < i0 → heights j < target)
        ∧ i0 + 1 ≤ tries)
    ∧ (∀ (tries delayMs target : Nat) (heights : Nat → Nat),
      (∀ i, i < tries → heights i < target) →
      waitForHeight tries delayMs target heights = .error .timeoutError)
    ∧ (∀ i : SrcOnomydIn, (∀ j, j < STD_TRIES → i.heights j < 5) →
      (srcOnomydRun i).snd = some .timeoutError
        ∧ (∀ e ∈ (srcOnomydRun i).fst, isChanOp e = false)
        ∧ (srcOnomydRun i).fst.length = 9) := by
  refine ⟨?_, ?_, ?_⟩
  · intro tries delayMs target heights _ h
    obtain ⟨i, hi, hge⟩ := h
    have := waitForHeightAux_ok target heights tries 0
      ⟨i, hi, by simpa using hge⟩
    obtain ⟨k, hk1, _, hk3, hk4, hk5⟩ := this
    exact ⟨k, hk1, hk4, fun j hj => hk5 j (by omega) hj, by omega⟩
  · intro tries delayMs target heights h
    exact waitForHeightAux_timeout target heights tries 0
      (fun j hj => by simpa using h j hj)
  · intro i h
    have hw : waitForHeight STD_TRIES STD_DELAY_MS 5 i.heights
        = .error .timeoutError :=
      waitForHeightAux_timeout 5 i.heights STD_TRIES 0
        (fun j hj => by simpa using h j hj)
    refine ⟨?_, ?_, ?_⟩
    · simp [srcOnomydRun, hw]
    · intro e he
      simp only [srcOnomydRun, hw] at he
      fin_cases he <;> rfl
    · simp [srcOnomydRun, hw]

theorem wait_for_height_bounded_polling_witness :
    (∃ i0, waitForHeight 3 300 2 (fun n => n) = .ok i0
      ∧ 2 ≤ (fun n : Nat => n) i0 ∧ (∀ j, j < i0 → (fun n : Nat => n) j < 2)
      ∧ i0 + 1 ≤ 3)
    ∧ waitForHeight 3 300 7 (fun n => n) = .error .timeoutError :=
  ⟨wait_for_height_bounded_polling.1 3 300 2 (fun n => n)
    (fun _ _ h => h) ⟨2, by decide, by decide⟩,
   wait_for_height_bounded_polling.2.1 3 300 7 (fun n => n)
    (fun j hj => by show j < 7; omega)⟩

/-- C7: if the Relayer never performs its `IbcPair` send, then in every
reachable state of the joint execution the Relayer-to-Provider queue is
empty and the Provider has not advanced past its blocking `IbcPair`
receive (script index `recvPairIdx`, which is indeed a receive of the
`IbcPair` type from the Relayer); a receive that is never delivered fails
with the channel timeout error, and on expiry of the global timeout the
harness stops every role container and reports the scenario failed with
no role left running. -/
theorem ibcpair_timeout_abort :
    (∀ s : JState, ReachFaulty s → s.pcP ≤ recvPairIdx ∧ s.qRP = [])
    ∧ onomydScript.get? recvPairIdx = some (.rcv .relayer .pairT)
    ∧ (∀ t : MsgType, (CAct.snd .provider t) ∉ hermesFaultyScript)
    ∧ recvOutcomeOf none = .timedOut
    ∧ harnessOnGlobalTimeout.passed = false
    ∧ harnessOnGlobalTimeout.runningRoles = [] := by
  refine ⟨?_, rfl, ?_, rfl, rfl, rfl⟩
  · intro s h
    have := c7_reach_inv s h
    exact ⟨this.2, this.1⟩
  · intro t
    cases t <;> decide

theorem ibcpair_timeout_abort_witness :
    initJState.pcP ≤ recvPairIdx ∧ initJState.qRP = [] :=
  ibcpair_timeout_abort.1 initJState Relation.ReflTransGen.refl

/-- C8: the bridged-asset denomination the Consumer derives is a
deterministic function of the (chain, connection, channel, port, base
denomination) endpoint data — any two runs whose received pairs carry the
same consumer-side endpoint derive the same literal and perform the very
same assertion — and on the scenario's fixed transfer endpoint the
derived denomination equals `ONOMY_IBC_NOM`, so the Consumer's equality
assertion compares equal literals. -/
theorem ibc_denom_deterministic :
    (∀ (e1 e2 : ChainEnd) (base : String), e1 = e2 →
      getIbcDenom e1 base = getIbcDenom e2 base)
    ∧ (∀ ci1 ci2 : ConsumerIn, ci1.pair.a = ci2.pair.a →
      (consumerRun ci1).get? 12 = (consumerRun ci2).get? 12)
    ∧ getIbcDenom scenarioTransferEnd "anom" = ONOMY_IBC_NOM
    ∧ (∀ ci : ConsumerIn, ci.pair.a = scenarioTransferEnd →
      (consumerRun ci).get? 12
        = some (.assertEqStr ONOMY_IBC_NOM ONOMY_IBC_NOM)) := by
  refine ⟨?_, ?_, rfl, ?_⟩
  · intro e1 e2 base h
    rw [h]
  · intro ci1 ci2 h
    show some (Ev.assertEqStr (getIbcDenom ci1.pair.a "anom") ONOMY_IBC_NOM)
      = some (Ev.assertEqStr (getIbcDenom ci2.pair.a "anom") ONOMY_IBC_NOM)
    rw [h]
  · intro ci h
    show some (Ev.assertEqStr (getIbcDenom ci.pair.a "anom") ONOMY_IBC_NOM)
      = some (Ev.assertEqStr ONOMY_IBC_NOM ONOMY_IBC_NOM)
    rw [h]
    rfl

theorem ibc_denom_deterministic_witness :
    (consumerRun defaultConsumerIn).get? 12
      = some (.assertEqStr ONOMY_IBC_NOM ONOMY_IBC_NOM) :=
  ibc_denom_deterministic.2.2.2 defaultConsumerIn rfl

/-- C4: on the Consumer's genesis patch, the freshly initialized genesis
is read from the well-known genesis path, the three subtrees are replaced
wholesale by the received fragments while every disjoint path is left
unchanged, the written text is exactly the serialized patched document
with every occurrence of the quoted literal `"stake"` replaced by
`"anom"`, and that text is written back to the same genesis path (event 8)
before the Consumer chain is first started (event 14). -/
theorem consumer_genesis_patch_frame (i : SrcMarketdIn) (x : Json)
    (hset : setSubtrees i.genesis i.ccvState i.accounts i.bank = some x) :
    (srcMarketdRun i).snd = none
    ∧ (srcMarketdRun i).fst.get? 7
        = some (.fileRead (marketdGenesisPath i.daemonHome))
    ∧ (srcMarketdRun i).fst.get? 8
        = some (.fileWrite (marketdGenesisPath i.daemonHome)
            (strReplace ⟨serJ x⟩ "\"stake\"" "\"anom\""))
    ∧ (srcMarketdRun i).fst.get? 14 = some (.startDaemon "marketd_runner.log")
    ∧ getPath x pathCcv = some i.ccvState
    ∧ getPath x pathAccounts = some i.accounts
    ∧ getPath x pathBank = some i.bank
    ∧ (∀ q, pathsDisjoint pathCcv q → pathsDisjoint pathAccounts q →
        pathsDisjoint pathBank q → getPath x q = getPath i.genesis q) := by
  have hps : patchedGenesisString i.genesis i.ccvState i.accounts i.bank
      = some (strReplace ⟨serJ x⟩ "\"stake\"" "\"anom\"") := by
    simp [patchedGenesisString, hset]
  obtain ⟨e1, e2, e3⟩ := setSubtrees_getPath _ _ _ _ _ hset
  have hrun : srcMarketdRun i =
      ([.listen "0.0.0.0:26001",
        .driverCall "config chain-id" ["market"],
        .driverCall "config keyring-backend test" [],
        .driverCall "init --overwrite" ["market"],
        .recv .provider (.vStr i.ccvStateS),
        .recv .provider (.vStr i.accountsS),
        .recv .provider (.vStr i.bankS),
        .fileRead (marketdGenesisPath i.daemonHome),
        .fileWrite (marketdGenesisPath i.daemonHome)
          (strReplace ⟨serJ x⟩ "\"stake\"" "\"anom\""),
        .fileWrite "/logs/market_genesis.json"
          (strReplace ⟨serJ x⟩ "\"stake\"" "\"anom\""),
        .recv .provider (.vStr i.nodeKey),
        .fileWrite (i.daemonHome ++ "/config/node_key.json") i.nodeKey,
        .recv .provider (.vStr i.privValKey),
        .fileWrite (i.daemonHome ++ "/config/priv_validator_key.json")
          i.privValKey,
        .startDaemon "marketd_runner.log",
        .send .provider .vUnit,
        .sleepTimeout,
        .termDaemon "cosmovisor"], none) := by
    simp [srcMarketdRun, hps]
  refine ⟨?_, ?_, ?_, ?_, e1, e2, e3, ?_⟩
  · rw [hrun]
  · rw [hrun]
    rfl
  · rw [hrun]
    rfl
  · rw [hrun]
    rfl
  · intro q d1 d2 d3
    exact setSubtrees_frame _ _ _ _ _ q hset d1 d2 d3

/-- A small concrete genesis for the patch witnesses. -/
def c4Genesis : Json :=
  .obj [("chain_id", .str "onomy"), ("app_state", .obj [("gov", .str "g")])]

def c4In : SrcMarketdIn :=
  { daemonHome := "/root/.onomy_market", ccvStateS := "cs", ccvState := .str "c",
    accountsS := "as", accounts := .str "a", bankS := "bs", bank := .str "b",
    genesis := c4Genesis, nodeKey := "n", privValKey := "p" }

def c4X : Json :=
  .obj [("chain_id", .str "onomy"),
    ("app_state", .obj [("gov", .str "g"), ("ccvconsumer", .str "c"),
      ("auth", .obj [("accounts", .str "a")]), ("bank", .str "b")])]

theorem consumer_genesis_patch_frame_witness :
    setSubtrees c4In.genesis c4In.ccvState c4In.accounts c4In.bank = some c4X
    ∧ getPath c4X pathCcv = some c4In.ccvState :=
  ⟨rfl, (consumer_genesis_patch_frame c4In c4X rfl).2.2.2.2.1⟩

/-- C5: applying the Consumer genesis patch twice with identical fragment
inputs yields exactly the same final document as applying it once, and the
string the code writes is exactly the serialization of the patched
document — for the once-patched base document a second run writes the very
same text. -/
theorem consumer_genesis_patch_idempotent (ccv accounts bank g d : Json)
    (hgood : goodB g = true) (hc : goodB ccv = true) (ha : goodB accounts = true)
    (hb : goodB bank = true) (h : applyConsumerPatch ccv accounts bank g = some d) :
    applyConsumerPatch ccv accounts bank d = some d
    ∧ patchedGenesisString g ccv accounts bank = some ⟨serJ d⟩
    ∧ patchedGenesisString d ccv accounts bank = some ⟨serJ d⟩ := by
  obtain ⟨x, hx, hd⟩ := Option.map_eq_some'.mp h
  subst hd
  have hxg : goodB x = true := setSubtrees_goodB g ccv accounts bank x hgood hc ha hb hx
  have hdg : goodB (substJ x) = true := substJ_goodB x hxg
  have hidem := applyConsumerPatch_idem ccv accounts bank g (substJ x) h
  refine ⟨hidem, ?_, ?_⟩
  · have hbr : strReplace ⟨serJ x⟩ "\"stake\"" "\"anom\"" = ⟨serJ (substJ x)⟩ := by
      simp only [strReplace]
      congr 1
      exact replaceL_serJ_final x hxg
    simp [patchedGenesisString, hx, hbr]
  · have hcongr := setSubtrees_substJ_congr ccv accounts bank (substJ x) x
      (substJ_idem x)
    have hself := setSubtrees_self g ccv accounts bank x hx
    rw [hself] at hcongr
    obtain ⟨y, hy, hyx⟩ := Option.map_eq_some'.mp hcongr
    have hyg : goodB y = true :=
      setSubtrees_goodB (substJ x) ccv accounts bank y hdg hc ha hb hy
    have hbr : strReplace ⟨serJ y⟩ "\"stake\"" "\"anom\"" = ⟨serJ (substJ y)⟩ := by
      simp only [strReplace]
      congr 1
      exact replaceL_serJ_final y hyg
    simp [patchedGenesisString, hy, hbr, hyx]

def c5G : Json :=
  .obj [("app_state", .obj [("denom", .str "stake")]), ("chain_id", .str "onomy")]

def c5D : Json :=
  .obj [("app_state", .obj [("denom", .str "anom"), ("ccvconsumer", .str "c"),
    ("auth", .obj [("accounts", .str "a")]), ("bank", .str "b")]),
    ("chain_id", .str "onomy")]

theorem consumer_genesis_patch_idempotent_witness :
    applyConsumerPatch (.str "c") (.str "a") (.str "b") c5G = some c5D
    ∧ applyConsumerPatch (.str "c") (.str "a") (.str "b") c5D = some c5D :=
  ⟨rfl, (consumer_genesis_patch_idempotent (.str "c") (.str "a") (.str "b") c5G c5D
    rfl rfl rfl rfl rfl).1⟩

/-! ## C6: teardown ordering -/

/-- The reading of C6 exactly as stated: every terminate call on a role's
long-running subprocess happens only after all of that role's channel
message operations. -/
def termAfterAllMsgs (evs : List Ev) : Prop :=
  ∀ a b ea eb, evs.get? a = some ea → isTermEv ea = true →
    evs.get? b = some eb → isChanOp eb = true → b < a

def claimC6AsStated : Prop :=
  termAfterAllMsgs (hermesRun defaultHermesIn)
  ∧ termAfterAllMsgs (onomydRun defaultOnomydIn)
  ∧ termAfterAllMsgs (consumerRun defaultConsumerIn)

/-- C6 counterexample: the Relayer's gas-denomination restart stops its
relayer subprocess (trace index 11) before its termination-signal receive
(trace index 15), so the claim as stated is false on the embedded run. -/
theorem teardown_claim_as_stated_false : ¬ claimC6AsStated := by
  intro h
  have h2 := h.1 11 15 (.termDaemon "hermes") (.recv .provider .vUnit)
    rfl rfl rfl rfl
  omega

/-- The final terminate of a trace sits at index `a`: it is a terminate
event and no channel operation follows it. -/
def finalTermAt (evs : List Ev) (a : Nat) : Prop :=
  (evs.get? a).map isTermEv = some true
  ∧ (evs.drop (a + 1)).all (fun e => !(isChanOp e)) = true

/-- C6 (amended): each role's final terminate of its long-running
subprocess happens only after all of its channel message exchanges —
including the termination-signal exchange — have completed; the earlier
terminate calls are the mid-run restarts (Relayer gas-denomination
restart, Consumer gas-price restart), which stop and restart the
subprocess before the exchange. -/
theorem teardown_after_exchange_amended (hi : HermesIn) (oi : OnomydIn)
    (ci : ConsumerIn) (shi : SrcHermesIn) :
    finalTermAt (hermesRun hi) 16
    ∧ (hermesRun hi).get? 15 = some (.recv .provider .vUnit)
    ∧ (hermesRun hi).get? 11 = some (.termDaemon "hermes")
    ∧ finalTermAt (onomydRun oi) 27
    ∧ (onomydRun oi).get? 25 = some (.send .relayer .vUnit)
    ∧ (onomydRun oi).get? 26 = some (.send .consumer .vUnit)
    ∧ finalTermAt (consumerRun ci) 27
    ∧ (consumerRun ci).get? 26 = some (.recv .provider .vUnit)
    ∧ (consumerRun ci).get? 15 = some (.termDaemon "cosmovisor")
    ∧ finalTermAt (srcHermesRun shi) 16 := by
  exact ⟨⟨rfl, rfl⟩, rfl, rfl, ⟨rfl, rfl⟩, rfl, rfl, ⟨rfl, rfl⟩, rfl, rfl,
    ⟨rfl, rfl⟩⟩

/-! ## C2: the happy-path scenario values -/

def defaultSrcOnomydIn : SrcOnomydIn :=
  { daemonHome := "/root/.onomy", mnemonic := "m", valsetValue := "v",
    ccvState := "c", genesis := .null, nodeKey := "n", privValKey := "p",
    heights := fun n => n }

/-- C2 exactly as stated, at the concrete happy-path run: proposal
submitted and voted `"1"`/`"yes"`; the Provider transfers `100000` base
units of `anom`; the Consumer's bridged balance after settling equals
`100000`; the Consumer sends `5000` back to the fixed address; that
address ends with `"5000"` of `anom`. -/
def claimC2AsStated : Prop :=
  (Ev.driverCall "tx gov submit-proposal consumer-addition"
      (["/root/.onomy" ++ "/config/consumer_add_proposal.json"] ++ gasArgs))
    ∈ (srcOnomydRun defaultSrcOnomydIn).fst
  ∧ (Ev.driverCall "tx gov vote" (["1", "yes"] ++ gasArgs))
    ∈ (srcOnomydRun defaultSrcOnomydIn).fst
  ∧ (Ev.ibcTransfer defaultPair.b "validator"
      (reprefixBech32 defaultOnomydIn.addr "onomy") "100000" "anom")
    ∈ onomydRun defaultOnomydIn
  ∧ bridgedBalanceAfterTransfer (amountNat (token18 100000 "")) = 100000
  ∧ (Ev.ibcTransfer defaultPair.a "validator" fixedTestAddr "5000"
      (getIbcDenom defaultPair.a "anom")) ∈ consumerRun defaultConsumerIn
  ∧ (Ev.assertEqStr "5000" "5000") ∈ onomydRun defaultOnomydIn

/-- C2 counterexample: the Provider's transfer is `token18(100.0e3)` =
`100000` whole tokens = `100000 * 10^18` base units, so the Consumer's
bridged base-unit balance after settling is `10^23`, not `100000`. -/
theorem ics_happy_path_as_stated_false : ¬ claimC2AsStated := by
  intro h
  exact absurd h.2.2.2.1 (by decide)

/-- C2 (amended): the Provider submits the consumer-addition proposal and
votes yes on proposal `"1"`; after receiving the `IbcPair` from the
Relayer it transfers `token18(100.0e3) = 100000·10^18` base units of
`anom` over the pair and waits for relaying; the Consumer then asserts
only that the derived bridged denomination is present in its balances
(the amount is not checked, and under the settling model it is
`100000·10^18`); the Consumer sends `5000` base units of the bridged
denomination back to the fixed provider-side address, and on the happy
path (all runtime assertions passing) that address's `anom` balance is
exactly `"5000"`. -/
theorem ics_happy_path_amended (si : SrcOnomydIn) (oi : OnomydIn) (ci : ConsumerIn)
    (hhappy : assertsOkB (onomydRun oi) = true) :
    ((Ev.driverCall "tx gov submit-proposal consumer-addition"
        ([si.daemonHome ++ "/config/consumer_add_proposal.json"] ++ gasArgs))
      ∈ (srcOnomydRun si).fst)
    ∧ ((Ev.driverCall "tx gov vote" (["1", "yes"] ++ gasArgs))
      ∈ (srcOnomydRun si).fst)
    ∧ (onomydRun oi).get? 14 = some (.recv .relayer (.vPair oi.pair))
    ∧ (onomydRun oi).get? 15 = some (.ibcTransfer oi.pair.b "validator"
        (reprefixBech32 oi.addr "onomy") (token18 100000 "") "anom")
    ∧ token18 100000 "" = "100000000000000000000000"
    ∧ bridgedBalanceAfterTransfer (amountNat (token18 100000 ""))
        = 100000 * 10 ^ 18
    ∧ (onomydRun oi).get? 16 = some (.waitBlocks 4)
    ∧ ((Ev.assertHas ci.hasIbcNom) ∈ consumerRun ci)
    ∧ (consumerRun ci).get? 23 = some (.ibcTransfer ci.pair.a "validator"
        (reprefixBech32 fixedTestAddr "onomy") "5000"
        (getIbcDenom ci.pair.a "anom"))
    ∧ reprefixBech32 fixedTestAddr "onomy" = fixedTestAddr
    ∧ (onomydRun oi).get? 24 = some (.assertEqStr oi.balAnom "5000")
    ∧ oi.balAnom = "5000" := by
  have hbal : oi.balAnom = "5000" := by
    simpa [assertsOkB, onomydRun] using hhappy
  refine ⟨?_, ?_, rfl, rfl, by decide, by decide, rfl, ?_, rfl, by decide, rfl,
    hbal⟩
  · rcases hw : waitForHeight STD_TRIES STD_DELAY_MS 5 si.heights with e | k
    · simp [srcOnomydRun, hw]
    · simp [srcOnomydRun, hw]
  · rcases hw : waitForHeight STD_TRIES STD_DELAY_MS 5 si.heights with e | k
    · simp [srcOnomydRun, hw]
    · simp [srcOnomydRun, hw]
  · simp [consumerRun]

theorem ics_happy_path_amended_witness :
    assertsOkB (onomydRun defaultOnomydIn) = true
    ∧ defaultOnomydIn.balAnom = "5000" :=
  ⟨by decide,
   (ics_happy_path_amended defaultSrcOnomydIn defaultOnomydIn defaultConsumerIn
     (by decide)).2.2.2.2.2.2.2.2.2.2.2⟩

end Onomy
